import Mathlib

/-!
Verification of the libvMI runtime engine (herisson repository,
src/ip2vf/libvMI/libvMI.cpp): the frame pool, the configuration parser
and the module registry, together with the properties claimed about them.

The definitions below are a shallow embedding of the C++ source.  Global
mutable state (the frame array, the next-handle counter, the maximum list
size, the module registry) is made into explicit state records that every
operation takes and returns.  Machine integers are modelled as Int; the
one place where an unsigned/signed comparison matters (the size_t vs int
comparison in libvmi_frame_create) is modelled with an explicit modulus.
-/

namespace LibvMI

/-- Modelled from the spec: LIBVMI_INVALID_HANDLE is declared in the header
libvMI.h, which is not part of the sources; the spec only says the invalid
handle is a reserved negative integer.  It is modelled as -1, consistently
with the -1 returned by the ref-count queries for unknown handles. -/
def LIBVMI_INVALID_HANDLE : Int := -1

/-- MEDIAFORMAT enumeration (declared in the common headers, used by
libvmi_frame_create_ext): video, audio fields are the ones the source
dispatches on. -/
inductive MEDIAFORMAT
  | VIDEO
  | AUDIO
  | DATA
deriving DecidableEq

/-- Modelled from the spec: the SAMPLINGFMT enumeration is declared in the
common headers, which are not part of the sources.  The numeric values are
unknown; they are modelled as distinct positive codes, so that the test
(init._video_smpfmt > 0) of the source means "a sampling format was
provided". -/
def SAMPLINGFMT_BGRA : Int := 1

/-- Modelled from the spec: numeric code for RGBA, see SAMPLINGFMT_BGRA. -/
def SAMPLINGFMT_RGBA : Int := 2

/-- Modelled from the spec: numeric code for BGR, see SAMPLINGFMT_BGRA. -/
def SAMPLINGFMT_BGR : Int := 3

/-- Modelled from the spec: numeric code for RGB, see SAMPLINGFMT_BGRA. -/
def SAMPLINGFMT_RGB : Int := 4

/-- Modelled from the spec: numeric code for YCbCr 4:2:2, see
SAMPLINGFMT_BGRA. -/
def SAMPLINGFMT_YCbCr_4_2_2 : Int := 5

/-- Modelled from the spec: the CFrameHeaders record (class in vmiframe.h,
not part of the sources).  Only the fields read or written by the code
under verification are modelled: media format, media size, width, height,
depth and sampling format, each with a Set/Get accessor pair used by
libvmi_frame_create_ext and _calculate_pixel_size_in_bits. -/
structure CFrameHeaders where
  mediaFormat : MEDIAFORMAT
  mediaSize : Int
  w : Int
  h : Int
  depth : Int
  smpfmt : Int
deriving DecidableEq

/-- Modelled from the spec: the default-constructed CFrameHeaders used at
the top of libvmi_frame_create_ext.  The constructor is not part of the
sources; unset numeric fields are modelled as 0 (an unset sampling format
must not be one of the positive codes) and the format as DATA.  No claim
depends on these defaults: every claim that reaches them provides all
fields explicitly. -/
def CFrameHeaders.init : CFrameHeaders :=
  { mediaFormat := MEDIAFORMAT.DATA, mediaSize := 0, w := 0, h := 0,
    depth := 0, smpfmt := 0 }

/-- Modelled from the spec: the CvMIFrame object (vmiframe.h/.cpp, not part
of the sources).  The spec describes it as a reference-counted buffer with
a headers record: addRef increments and returns the new count, releaseRef
decrements and returns the new count, the constructor used by
libvmi_frame_create produces a frame with reference count 1 (the source
does not call addRef on the freshly created frame), and create(headers)
copies the headers in, sizes the buffer from the media-size header and
sets the reference count to 1.  The buffer contents never matter to the
claims, so only the count and the headers are modelled. -/
structure CvMIFrame where
  refcount : Int
  headers : CFrameHeaders
deriving DecidableEq

/-- tFrameItem: one slot of the frame array, a tuple of the handle
associated with the slot, the frame object and the free flag
(libvMI.cpp lines 35-38). -/
structure tFrameItem where
  handle : Int
  frame : CvMIFrame
  free : Bool
deriving DecidableEq

/-- MAX_FRAME_IN_LIST (libvMI.cpp line 25): default bound of the frame
array. -/
def MAX_FRAME_IN_LIST : Int := 10

/-- The global frame-pool state: g_vMIFramesArray, g_vMIFramesNextHandle
and g_vMIMaxFramesInList (libvMI.cpp lines 40-43). -/
structure PoolState where
  frames : List tFrameItem
  nextHandle : Int
  maxFrames : Int
deriving DecidableEq

/-- 2^64, the modulus of size_t on the 64-bit targets the build files
configure.  In the source the comparison g_vMIFramesArray.size() >=
g_vMIMaxFramesInList converts the int bound to size_t. -/
def SIZE_T_MOD : Int := 18446744073709551616

/-- The free-slot scan of libvmi_frame_create (lines 56-65): walk the
array in order; at the first slot whose free flag is set, store the next
handle, addRef the frame and clear the free flag.  Returns the updated
list, or none when no slot is free. -/
def reuseFirstFree (l : List tFrameItem) (h : Int) : Option (List tFrameItem) :=
  match l with
  | [] => none
  | it :: rest =>
    if it.free then
      some ({ handle := h,
              frame := { it.frame with refcount := it.frame.refcount + 1 },
              free := false } :: rest)
    else
      (reuseFirstFree rest h).map (fun r => it :: r)

/-- libvmi_frame_create (libvMI.cpp lines 51-82): reuse the first free
slot with a freshly incremented handle; otherwise, if the array size has
reached g_vMIMaxFramesInList (a size_t vs int comparison), fail with
LIBVMI_INVALID_HANDLE; otherwise append a new slot holding a fresh frame
and the freshly incremented handle. -/
def libvmi_frame_create (s : PoolState) : PoolState × Int :=
  match reuseFirstFree s.frames s.nextHandle with
  | some l => ({ s with frames := l, nextHandle := s.nextHandle + 1 }, s.nextHandle)
  | none =>
    if (s.frames.length : Int) ≥ Int.emod s.maxFrames SIZE_T_MOD then
      (s, LIBVMI_INVALID_HANDLE)
    else
      ({ s with
          frames := s.frames ++ [{ handle := s.nextHandle,
                                   frame := { refcount := 1, headers := CFrameHeaders.init },
                                   free := false }],
          nextHandle := s.nextHandle + 1 }, s.nextHandle)

/-- The scan of libvmi_frame_release (lines 176-191): find the first slot
whose stored handle equals the argument; decrement the frame's reference
count (CvMIFrame::releaseRef, modelled from the spec as a plain decrement
returning the new count); when the new count is 0, set the free flag and
clear the stored handle to LIBVMI_INVALID_HANDLE; return the new count.
Returns none when no slot matches. -/
def releaseInList (l : List tFrameItem) (h : Int) : Option (List tFrameItem × Int) :=
  match l with
  | [] => none
  | it :: rest =>
    if it.handle = h then
      let ret := it.frame.refcount - 1
      let it1 : tFrameItem :=
        { handle := if ret = 0 then LIBVMI_INVALID_HANDLE else it.handle,
          frame := { it.frame with refcount := ret },
          free := if ret = 0 then true else it.free }
      some (it1 :: rest, ret)
    else
      (releaseInList rest h).map (fun r => (it :: r.1, r.2))

/-- libvmi_frame_release (libvMI.cpp lines 170-194): decrement the
reference count of the frame whose slot stores the given handle; at 0 the
slot is freed; an unknown handle leaves the pool unchanged and returns
-1. -/
def libvmi_frame_release (s : PoolState) (h : Int) : PoolState × Int :=
  match releaseInList s.frames h with
  | some (l, ret) => ({ s with frames := l }, ret)
  | none => (s, -1)

/-- The scan of libvmi_frame_addref (lines 206-213): find the first slot
whose stored handle equals the argument and increment the frame's
reference count (CvMIFrame::addRef, modelled from the spec as a plain
increment returning the new count). -/
def addrefInList (l : List tFrameItem) (h : Int) : Option (List tFrameItem × Int) :=
  match l with
  | [] => none
  | it :: rest =>
    if it.handle = h then
      some ({ it with frame := { it.frame with refcount := it.frame.refcount + 1 } } :: rest,
            it.frame.refcount + 1)
    else
      (addrefInList rest h).map (fun r => (it :: r.1, r.2))

/-- libvmi_frame_addref (libvMI.cpp lines 202-216): increment the
reference count of the frame whose slot stores the given handle; an
unknown handle leaves the pool unchanged and returns -1. -/
def libvmi_frame_addref (s : PoolState) (h : Int) : PoolState × Int :=
  match addrefInList s.frames h with
  | some (l, ret) => ({ s with frames := l }, ret)
  | none => (s, -1)

/-- libvMI_frame_get (libvMI.cpp lines 226-236): return the frame of the
first slot whose stored handle equals the argument, none when no slot
matches. -/
def libvMI_frame_get (s : PoolState) (h : Int) : Option CvMIFrame :=
  (s.frames.find? (fun it => it.handle = h)).map (fun it => it.frame)

/-- libvMI_frame_getsize (libvMI.cpp lines 244-252): the media size of the
frame designated by the handle (CvMIFrame::getMediaSize, modelled from the
spec as the media-size header), or -1 when the handle is not found. -/
def libvMI_frame_getsize (s : PoolState) (h : Int) : Int :=
  match libvMI_frame_get s h with
  | some f => f.headers.mediaSize
  | none => -1

/-- VMIPARAMETER enumeration: the two parameters the source dispatches on
(libvMI.cpp lines 312-318 and 336-341). -/
inductive VMIPARAMETER
  | MAX_FRAMES_IN_LIST
  | CUR_FRAMES_IN_LIST
deriving DecidableEq

/-- libvMI_get_parameter (libvMI.cpp lines 309-324): MAX_FRAMES_IN_LIST
reads g_vMIMaxFramesInList, CUR_FRAMES_IN_LIST reads the frame-array
size. -/
def libvMI_get_parameter (s : PoolState) (p : VMIPARAMETER) : Int :=
  match p with
  | VMIPARAMETER.MAX_FRAMES_IN_LIST => s.maxFrames
  | VMIPARAMETER.CUR_FRAMES_IN_LIST => (s.frames.length : Int)

/-- libvMI_set_parameter (libvMI.cpp lines 333-346): only
MAX_FRAMES_IN_LIST is writable. -/
def libvMI_set_parameter (s : PoolState) (p : VMIPARAMETER) (value : Int) : PoolState :=
  match p with
  | VMIPARAMETER.MAX_FRAMES_IN_LIST => { s with maxFrames := value }
  | VMIPARAMETER.CUR_FRAMES_IN_LIST => s

/-- _calculate_pixel_size_in_bits (libvMI.cpp lines 91-113): 4 bits of
depth per pixel for BGRA/RGBA, 3 for BGR/RGB, 2 for YCbCr 4:2:2, -1 for
any other sampling format. -/
def _calculate_pixel_size_in_bits (fh : CFrameHeaders) : Int :=
  if fh.smpfmt = SAMPLINGFMT_BGRA ∨ fh.smpfmt = SAMPLINGFMT_RGBA then
    4 * fh.depth
  else if fh.smpfmt = SAMPLINGFMT_BGR ∨ fh.smpfmt = SAMPLINGFMT_RGB then
    3 * fh.depth
  else if fh.smpfmt = SAMPLINGFMT_YCbCr_4_2_2 then
    2 * fh.depth
  else
    -1

/-- vMIFrameInitStruct: the initialisation parameters taken by
libvmi_frame_create_ext (declared in libvMI.h; field names and the tests
applied to them are visible in libvMI.cpp lines 122-151).  The sampling
format field is the numeric enumeration value (see SAMPLINGFMT_BGRA). -/
structure vMIFrameInitStruct where
  _media_format : MEDIAFORMAT
  _media_size : Int
  _video_width : Int
  _video_height : Int
  _video_depth : Int
  _video_smpfmt : Int
deriving DecidableEq

/-- The headers after the SetW/SetH/SetDepth/SetSamplingFmt sequence of
libvmi_frame_create_ext for a video frame (libvMI.cpp lines 130-133):
each field is set only when the corresponding parameter is positive. -/
def videoHeaders (init : vMIFrameInitStruct) (fh1 : CFrameHeaders) : CFrameHeaders :=
  let fh2 := if init._video_width > 0 then { fh1 with w := init._video_width } else fh1
  let fh3 := if init._video_height > 0 then { fh2 with h := init._video_height } else fh2
  let fh4 := if init._video_depth > 0 then { fh3 with depth := init._video_depth } else fh3
  if init._video_smpfmt > 0 then { fh4 with smpfmt := init._video_smpfmt } else fh4

/-- The media size libvmi_frame_create_ext computes for a video frame
(libvMI.cpp lines 135 and 139): width times height times the pixel size
in bits, divided by 8 with the C++ int division (truncation towards
zero). -/
def videoCodeSize (init : vMIFrameInitStruct) (fh1 : CFrameHeaders) : Int :=
  Int.tdiv (init._video_width * init._video_height *
    _calculate_pixel_size_in_bits (videoHeaders init fh1)) 8

/-- The parameter-validation and header-building prologue of
libvmi_frame_create_ext (libvMI.cpp lines 124-151), returning the headers
to install on the acquired frame, or none where the source returns
LIBVMI_INVALID_HANDLE without touching the pool. -/
def validateAndBuildHeaders (init : vMIFrameInitStruct) : Option CFrameHeaders :=
  let fh0 := { CFrameHeaders.init with mediaFormat := init._media_format }
  let fh1 := if init._media_size > 0 then { fh0 with mediaSize := init._media_size } else fh0
  if init._media_format = MEDIAFORMAT.VIDEO then
    let fh5 := videoHeaders init fh1
    if init._media_size ≤ 0 then
      some { fh5 with mediaSize := videoCodeSize init fh1 }
    else if init._media_size > 0 ∧ init._video_width > 0 ∧ init._video_height > 0 ∧
            init._video_depth > 0 ∧ init._video_smpfmt > 0 then
      if init._media_size ≠ videoCodeSize init fh1 then none else some fh5
    else
      some fh5
  else if init._media_format = MEDIAFORMAT.AUDIO then
    if init._media_size ≤ 0 then none else some fh1
  else
    some fh1

/-- CvMIFrame::create applied through the pool: update the frame of the
first slot whose stored handle equals the argument (the slot
libvMI_frame_get returns) to a frame holding the given headers with
reference count 1 (create is modelled from the spec: copy the headers,
size the buffer, set the count to 1). -/
def frameCreateAt (l : List tFrameItem) (h : Int) (fh : CFrameHeaders) : List tFrameItem :=
  match l with
  | [] => []
  | it :: rest =>
    if it.handle = h then
      { it with frame := { refcount := 1, headers := fh } } :: rest
    else
      it :: frameCreateAt rest h fh

/-- libvmi_frame_create_ext (libvMI.cpp lines 122-160): validate the
initialisation parameters and build the headers; on failure return
LIBVMI_INVALID_HANDLE without touching the pool; otherwise acquire a
frame through libvmi_frame_create and, when that succeeded, install the
headers on it via CvMIFrame::create. -/
def libvmi_frame_create_ext (s : PoolState) (init : vMIFrameInitStruct) : PoolState × Int :=
  match validateAndBuildHeaders init with
  | none => (s, LIBVMI_INVALID_HANDLE)
  | some fh =>
    let r := libvmi_frame_create s
    if r.2 ≠ LIBVMI_INVALID_HANDLE then
      ({ r.1 with frames := frameCreateAt r.1.frames r.2 fh }, r.2)
    else
      r

/-- Modelled from the spec: tools::split (tools.cpp, not part of the
sources); the spec says the configuration is split on a delimiter
character.  Standard splitting: every delimiter occurrence separates two
(possibly empty) tokens.  Strings are handled as their character lists. -/
def splitCh (d : Char) : List Char → List (List Char)
  | [] => [[]]
  | c :: rest =>
    match splitCh d rest with
    | [] => if c = d then [[], []] else [[c]]
    | t :: ts => if c = d then [] :: t :: ts else (c :: t) :: ts

/-- ParseConfiguration (libvMI.cpp lines 351-355): the module-level
configuration and the per-pin configuration strings. -/
structure ParseConfiguration where
  moduleConfiguration : List Char
  inputConfigurations : List (List Char)
  outputConfigurations : List (List Char)
deriving DecidableEq

/-- Which bucket the currentPin pointer of _parseConfiguration designates:
the module configuration, the last input configuration, or the last
output configuration. -/
inductive PinTarget
  | module
  | input
  | output
deriving DecidableEq

/-- Append text to the last string of a list of strings (the effect of
writing through currentPin when it points at the back of one of the two
vectors). -/
def appendLast (ls : List (List Char)) (x : List Char) : List (List Char) :=
  match ls with
  | [] => []
  | [b] => [b ++ x]
  | b :: bs => b :: appendLast bs x

/-- Write through the currentPin pointer: append the text to the bucket
the pointer designates. -/
def appendTok (pc : ParseConfiguration) (tgt : PinTarget) (x : List Char) : ParseConfiguration :=
  match tgt with
  | PinTarget.module => { pc with moduleConfiguration := pc.moduleConfiguration ++ x }
  | PinTarget.input => { pc with inputConfigurations := appendLast pc.inputConfigurations x }
  | PinTarget.output => { pc with outputConfigurations := appendLast pc.outputConfigurations x }

/-- The key of a token: the text before the first equals sign (params[0]
in the source). -/
def tokKey (tok : List Char) : List Char :=
  (splitCh '=' tok).headD []

/-- The token loop of _parseConfiguration (libvMI.cpp lines 371-400):
skip empty tokens; skip tokens that do not split on the equals sign into
exactly two parts; open a new output bucket on an out_type token and a
new input bucket on an in_type token, retargeting currentPin; append the
token followed by a comma to the bucket currentPin designates.  The
source tests out_type and in_type in two consecutive non-exclusive ifs;
as a token key cannot equal both strings, they are rendered here as a
nested if. -/
def parseLoop : List (List Char) → PinTarget → ParseConfiguration → ParseConfiguration
  | [], _, pc => pc
  | tok :: rest, tgt, pc =>
    if tok = [] then
      parseLoop rest tgt pc
    else if (splitCh '=' tok).length ≠ 2 then
      parseLoop rest tgt pc
    else if tokKey tok = "out_type".toList then
      parseLoop rest PinTarget.output
        (appendTok { pc with outputConfigurations := pc.outputConfigurations ++ [[]] }
          PinTarget.output (tok ++ [',']))
    else if tokKey tok = "in_type".toList then
      parseLoop rest PinTarget.input
        (appendTok { pc with inputConfigurations := pc.inputConfigurations ++ [[]] }
          PinTarget.input (tok ++ [',']))
    else
      parseLoop rest tgt (appendTok pc tgt (tok ++ [',']))

/-- _parseConfiguration (libvMI.cpp lines 365-403): split the
configuration on commas and run the token loop starting with currentPin
aimed at the module configuration. -/
def _parseConfiguration (config : String) : ParseConfiguration :=
  parseLoop (splitCh ',' config.toList) PinTarget.module
    { moduleConfiguration := [], inputConfigurations := [], outputConfigurations := [] }

/-- A token is kept by the parser when it is non-empty and splits on the
equals sign into exactly two parts. -/
def keptTok (tok : List Char) : Prop :=
  tok ≠ [] ∧ (splitCh '=' tok).length = 2

instance (tok : List Char) : Decidable (keptTok tok) := by
  unfold keptTok; infer_instance

/-- Spec-side rendering of the parser, written from the spec's own words
(amended to append a trailing comma after every token, which is what the
source emits): kept tokens before the first delimiter form the module
bucket; an out_type or in_type token opens a new output or input bucket
that contains the delimiter token itself and every following kept token
up to the next delimiter; each bucket is the concatenation of its tokens,
each followed by a comma. -/
def parseConfigurationSpec : List (List Char) → ParseConfiguration
  | [] => { moduleConfiguration := [], inputConfigurations := [], outputConfigurations := [] }
  | tok :: rest =>
    let r := parseConfigurationSpec rest
    if ¬ keptTok tok then r
    else if tokKey tok = "out_type".toList then
      { moduleConfiguration := [],
        inputConfigurations := r.inputConfigurations,
        outputConfigurations := ((tok ++ [',']) ++ r.moduleConfiguration) ::
          r.outputConfigurations }
    else if tokKey tok = "in_type".toList then
      { moduleConfiguration := [],
        inputConfigurations := ((tok ++ [',']) ++ r.moduleConfiguration) ::
          r.inputConfigurations,
        outputConfigurations := r.outputConfigurations }
    else
      { r with moduleConfiguration := (tok ++ [',']) ++ r.moduleConfiguration }

/-- CvMIOutput (vMI_output.h, external to the sources): only the pin
handle and the outbound queue matter to the claims.  CvMIOutput::send is
modelled from the spec: addref the frame, enqueue the handle, return. -/
structure CvMIOutput where
  handle : Int
  queue : List Int
deriving DecidableEq

/-- CvMIModuleController (vMI_module.h, external to the sources): the
ordered list of output pins is all the claims need. -/
structure CvMIModuleController where
  outputs : List CvMIOutput
deriving DecidableEq

/-- Ip2vfModulesEntry (libvMI.cpp lines 406-410): one registry entry,
holding the module configuration text and the controller object. -/
structure Ip2vfModulesEntry where
  moduleConfig : List Char
  module : CvMIModuleController
deriving DecidableEq

/-- libvMI_get_output (libvMI.cpp lines 642-655): scan the module's
output pins in order for the one with the given handle. -/
def libvMI_get_output (reg : List Ip2vfModulesEntry) (hModule hOutput : Int) :
    Option CvMIOutput :=
  match reg[hModule.toNat]? with
  | none => none
  | some entry => entry.module.outputs.find? (fun o => o.handle = hOutput)

/-- Enqueue a frame handle on the first output pin with the given handle
(the mutation performed by currentOutput->send(hFrame)). -/
def enqueueOnOutput (outs : List CvMIOutput) (hOutput hFrame : Int) : List CvMIOutput :=
  match outs with
  | [] => []
  | o :: rest =>
    if o.handle = hOutput then { o with queue := o.queue ++ [hFrame] } :: rest
    else o :: enqueueOnOutput rest hOutput hFrame

/-- libvMI_send (libvMI.cpp lines 716-733): when no output pin with the
given handle exists on the module, log and return 0 without doing
anything; when the frame handle is unknown to the pool, return -1;
otherwise delegate to the output pin's send (modelled from the spec:
addref the frame and enqueue its handle) and return 0. -/
def libvMI_send (reg : List Ip2vfModulesEntry) (pool : PoolState)
    (hModule hOutput hFrame : Int) : List Ip2vfModulesEntry × PoolState × Int :=
  match libvMI_get_output reg hModule hOutput with
  | none => (reg, pool, 0)
  | some _ =>
    match libvMI_frame_get pool hFrame with
    | some _ =>
      let reg' :=
        match reg[hModule.toNat]? with
        | none => reg
        | some entry =>
          reg.set hModule.toNat
            { entry with module :=
                { outputs := enqueueOnOutput entry.module.outputs hOutput hFrame } }
      (reg', (libvmi_frame_addref pool hFrame).1, 0)
    | none => (reg, pool, -1)

/-- libvMI_close (libvMI.cpp lines 744-751): close the controller, delete
the entry and erase it from the registry vector (which shifts every later
entry down by one index). -/
def libvMI_close (reg : List Ip2vfModulesEntry) (hModule : Int) :
    List Ip2vfModulesEntry × Int :=
  (reg.eraseIdx hModule.toNat, 0)

/-- An abstract step of the frame-pool interface, used to speak about
whole runs. -/
inductive PoolOp
  | create
  | release (h : Int)
  | addref (h : Int)
deriving DecidableEq

/-- Apply one pool operation, returning the new state and the operation's
return value. -/
def applyOp (s : PoolState) : PoolOp → PoolState × Int
  | PoolOp.create => libvmi_frame_create s
  | PoolOp.release h => libvmi_frame_release s h
  | PoolOp.addref h => libvmi_frame_addref s h

/-- Run a sequence of pool operations, collecting the handles granted by
the successful libvmi_frame_create calls in order. -/
def runOps (s : PoolState) : List PoolOp → PoolState × List Int
  | [] => (s, [])
  | op :: rest =>
    let r := applyOp s op
    let tail := runOps r.1 rest
    match op with
    | PoolOp.create =>
      if r.2 ≠ LIBVMI_INVALID_HANDLE then (tail.1, r.2 :: tail.2) else tail
    | _ => tail

/-- The slot produced by a successful release on a slot holding the frame
with reference count c: count decremented; freed exactly when the new
count is 0. -/
def releasedSlot (it : tFrameItem) : tFrameItem :=
  { handle := if it.frame.refcount - 1 = 0 then LIBVMI_INVALID_HANDLE else it.handle,
    frame := { it.frame with refcount := it.frame.refcount - 1 },
    free := if it.frame.refcount - 1 = 0 then true else it.free }

theorem releaseInList_found (h : Int) :
    ∀ (l : List tFrameItem) (i : Nat) (it : tFrameItem),
      l[i]? = some it → it.handle = h →
      (∀ j, j < i → ∀ it', l[j]? = some it' → it'.handle ≠ h) →
      releaseInList l h = some (l.set i (releasedSlot it), it.frame.refcount - 1) := by
  intro l
  induction l with
  | nil => intro i it hget; simp at hget
  | cons a rest ih =>
    intro i it hget hh hfirst
    cases i with
    | zero =>
      simp only [List.getElem?_cons_zero, Option.some.injEq] at hget
      subst hget
      simp only [releaseInList, if_pos hh, releasedSlot, List.set]
    | succ n =>
      have ha : a.handle ≠ h := hfirst 0 (Nat.succ_pos n) a (by simp)
      simp only [List.getElem?_cons_succ] at hget
      have hfirst' : ∀ j, j < n → ∀ it', rest[j]? = some it' → it'.handle ≠ h := by
        intro j hj it' hget'
        exact hfirst (j + 1) (Nat.succ_lt_succ hj) it' (by simpa using hget')
      simp only [releaseInList, if_neg ha, ih n it hget hh hfirst', Option.map_some,
        List.set]
      rfl

theorem releaseInList_not_found (h : Int) :
    ∀ l : List tFrameItem, (∀ it ∈ l, it.handle ≠ h) → releaseInList l h = none := by
  intro l
  induction l with
  | nil => intro _; rfl
  | cons it rest ih =>
    intro hall
    have h1 : it.handle ≠ h := hall it (List.mem_cons_self it rest)
    simp only [releaseInList, if_neg h1]
    rw [ih (fun x hx => hall x (List.mem_cons_of_mem it hx))]
    rfl

/-- C5: frame_release on a handle stored in the slot table decrements that
frame's reference count and returns the new count; a new count of 0 frees
the slot and clears its handle to the invalid sentinel; a nonzero
(possibly negative) new count leaves the free flag and the stored handle
untouched; other slots, the slot count and the rest of the pool state are
unchanged; an unknown handle returns -1 and leaves the pool unchanged. -/
theorem claim_C5_frame_release (s : PoolState) (h : Int) :
    ((∀ it ∈ s.frames, it.handle ≠ h) → libvmi_frame_release s h = (s, -1)) ∧
    (∀ (i : Nat) (it : tFrameItem), s.frames[i]? = some it → it.handle = h →
      (∀ j, j < i → ∀ it' : tFrameItem, s.frames[j]? = some it' → it'.handle ≠ h) →
      (libvmi_frame_release s h).2 = it.frame.refcount - 1 ∧
      (libvmi_frame_release s h).1.frames.length = s.frames.length ∧
      (∃ slot, (libvmi_frame_release s h).1.frames[i]? = some slot ∧
        slot.frame.refcount = it.frame.refcount - 1 ∧
        slot.frame.headers = it.frame.headers ∧
        (it.frame.refcount - 1 = 0 → slot.free = true ∧ slot.handle = LIBVMI_INVALID_HANDLE) ∧
        (it.frame.refcount - 1 ≠ 0 → slot.free = it.free ∧ slot.handle = it.handle)) ∧
      (∀ j, j ≠ i → (libvmi_frame_release s h).1.frames[j]? = s.frames[j]?) ∧
      (libvmi_frame_release s h).1.nextHandle = s.nextHandle ∧
      (libvmi_frame_release s h).1.maxFrames = s.maxFrames) := by
  constructor
  · intro hall
    simp only [libvmi_frame_release, releaseInList_not_found h s.frames hall]
  · intro i it hget hh hfirst
    have hrel := releaseInList_found h s.frames i it hget hh hfirst
    have hi : i < s.frames.length := by
      by_contra hge
      rw [List.getElem?_eq_none (Nat.le_of_not_lt hge)] at hget
      exact Option.noConfusion hget
    have heq : libvmi_frame_release s h =
        ({ s with frames := s.frames.set i (releasedSlot it) }, it.frame.refcount - 1) := by
      simp only [libvmi_frame_release, hrel]
    rw [heq]
    refine ⟨rfl, by simp, ⟨releasedSlot it, ?_, ?_, ?_, ?_, ?_⟩, ?_, rfl, rfl⟩
    · simpa using List.getElem?_set_self (l := s.frames) (a := releasedSlot it) hi
    · simp [releasedSlot]
    · simp [releasedSlot]
    · intro h0; simp [releasedSlot, if_pos h0]
    · intro h0; simp [releasedSlot, if_neg h0]
    · intro j hj
      exact List.getElem?_set_ne (by omega)

theorem list_addref_release (h : Int) :
    ∀ (l : List tFrameItem) (it0 : tFrameItem),
      l.find? (fun it => it.handle = h) = some it0 → it0.frame.refcount ≠ 0 →
      ∃ l', addrefInList l h = some (l', it0.frame.refcount + 1) ∧
            releaseInList l' h = some (l, it0.frame.refcount) := by
  intro l
  induction l with
  | nil => intro it0 hf; simp [List.find?] at hf
  | cons a rest ih =>
    intro it0 hf hc
    by_cases ha : a.handle = h
    · rw [List.find?_cons_of_pos _ (by simpa using ha)] at hf
      cases hf
      refine ⟨{ a with frame := { a.frame with refcount := a.frame.refcount + 1 } } :: rest,
        ?_, ?_⟩
      · simp only [addrefInList, if_pos ha]
      · simp only [releaseInList]
        rw [if_pos (show ({ a with frame := { a.frame with refcount := a.frame.refcount + 1 } } : tFrameItem).handle = h from ha)]
        simp only [Int.add_sub_cancel]
        have hne : a.frame.refcount ≠ 0 := hc
        simp only [if_neg hne]
    · rw [List.find?_cons_of_neg _ (by simpa using ha)] at hf
      obtain ⟨l', h1, h2⟩ := ih it0 hf hc
      refine ⟨a :: l', ?_, ?_⟩
      · rw [show addrefInList (a :: rest) h = (addrefInList rest h).map (fun r => (a :: r.1, r.2)) from by simp only [addrefInList, if_neg ha], h1]
        simp
      · rw [show releaseInList (a :: l') h = (releaseInList l' h).map (fun r => (a :: r.1, r.2)) from by simp only [releaseInList, if_neg ha], h2]
        simp

/-- C9: for a live frame handle (the pool lookup finds a frame with
reference count at least 1), frame_addref followed by frame_release
returns the incremented count then the original count and restores the
pool state exactly, so the refcount, the slot count and every free flag
are unchanged. -/
theorem claim_C9_addref_release (s : PoolState) (h : Int) (f : CvMIFrame)
    (hget : libvMI_frame_get s h = some f) (hlive : 1 ≤ f.refcount) :
    (libvmi_frame_addref s h).2 = f.refcount + 1 ∧
    (libvmi_frame_release (libvmi_frame_addref s h).1 h).2 = f.refcount ∧
    (libvmi_frame_release (libvmi_frame_addref s h).1 h).1 = s := by
  simp only [libvMI_frame_get, Option.map_eq_some'] at hget
  obtain ⟨it0, hfind, hframe⟩ := hget
  have hc : it0.frame.refcount ≠ 0 := by rw [hframe]; omega
  obtain ⟨l', h1, h2⟩ := list_addref_release h s.frames it0 hfind hc
  have ha : libvmi_frame_addref s h = ({ s with frames := l' }, it0.frame.refcount + 1) := by
    simp only [libvmi_frame_addref, h1]
  have hr : libvmi_frame_release { s with frames := l' } h = (s, it0.frame.refcount) := by
    simp only [libvmi_frame_release, h2]
  rw [ha, hframe] at *
  simp only [hr, hframe]
  trivial

theorem reuseFirstFree_none_iff (h : Int) :
    ∀ l : List tFrameItem, reuseFirstFree l h = none ↔ ∀ it ∈ l, it.free = false := by
  intro l
  induction l with
  | nil => simp [reuseFirstFree]
  | cons a rest ih =>
    by_cases hf : a.free
    · simp [reuseFirstFree, hf]
    · simp only [reuseFirstFree, if_neg hf, Option.map_eq_none', ih]
      constructor
      · intro hall it hmem
        rcases List.mem_cons.1 hmem with rfl | hmem'
        · exact Bool.eq_false_iff.2 hf
        · exact hall it hmem'
      · intro hall it hmem
        exact hall it (List.mem_cons_of_mem a hmem)

theorem reuseFirstFree_found (h : Int) :
    ∀ (l : List tFrameItem) (i : Nat) (it : tFrameItem),
      l[i]? = some it → it.free = true →
      (∀ j, j < i → ∀ it' : tFrameItem, l[j]? = some it' → it'.free = false) →
      reuseFirstFree l h =
        some (l.set i { handle := h,
                        frame := { it.frame with refcount := it.frame.refcount + 1 },
                        free := false }) := by
  intro l
  induction l with
  | nil => intro i it hget; simp at hget
  | cons a rest ih =>
    intro i it hget hfree hfirst
    cases i with
    | zero =>
      simp only [List.getElem?_cons_zero, Option.some.injEq] at hget
      subst hget
      simp only [reuseFirstFree, if_pos hfree, List.set]
    | succ n =>
      have ha : a.free = false := hfirst 0 (Nat.succ_pos n) a (by simp)
      simp only [List.getElem?_cons_succ] at hget
      have hfirst' : ∀ j, j < n → ∀ it' : tFrameItem, rest[j]? = some it' → it'.free = false := by
        intro j hj it' hget'
        exact hfirst (j + 1) (Nat.succ_lt_succ hj) it' (by simpa using hget')
      rw [show reuseFirstFree (a :: rest) h = (reuseFirstFree rest h).map (fun r => a :: r) from by
            simp only [reuseFirstFree, ha, Bool.false_eq_true, if_false],
          ih n it hget hfree hfirst']
      simp [List.set]

theorem reuseFirstFree_some_mem (h : Int) :
    ∀ (l l' : List tFrameItem), reuseFirstFree l h = some l' →
      ∃ it ∈ l', it.handle = h := by
  intro l
  induction l with
  | nil => intro l' hl; simp [reuseFirstFree] at hl
  | cons a rest ih =>
    intro l' hl
    by_cases hf : a.free
    · simp only [reuseFirstFree, if_pos hf, Option.some.injEq] at hl
      exact ⟨_, hl ▸ List.mem_cons_self _ _, rfl⟩
    · simp only [reuseFirstFree, if_neg hf, Option.map_eq_some'] at hl
      obtain ⟨r, hr, hl'⟩ := hl
      obtain ⟨it, hmem, hh⟩ := ih r hr
      exact ⟨it, hl' ▸ List.mem_cons_of_mem a hmem, hh⟩

theorem reuseFirstFree_length (h : Int) :
    ∀ (l l' : List tFrameItem), reuseFirstFree l h = some l' → l'.length = l.length := by
  intro l
  induction l with
  | nil => intro l' hl; simp [reuseFirstFree] at hl
  | cons a rest ih =>
    intro l' hl
    by_cases hf : a.free
    · simp only [reuseFirstFree, if_pos hf, Option.some.injEq] at hl
      simp [← hl]
    · simp only [reuseFirstFree, if_neg hf, Option.map_eq_some'] at hl
      obtain ⟨r, hr, hl'⟩ := hl
      simp [← hl', ih r hr]

/-- The acquire path can succeed: a free slot exists or the array is
strictly below the configured bound (after the size_t conversion the
source applies). -/
def poolCanAcquire (s : PoolState) : Bool :=
  s.frames.any (fun it => it.free) ||
    decide ((s.frames.length : Int) < Int.emod s.maxFrames SIZE_T_MOD)

theorem frame_create_of_canAcquire (s : PoolState) (hcan : poolCanAcquire s = true) :
    (libvmi_frame_create s).2 = s.nextHandle ∧
    (libvmi_frame_create s).1.nextHandle = s.nextHandle + 1 ∧
    (libvmi_frame_create s).1.maxFrames = s.maxFrames ∧
    (∃ it ∈ (libvmi_frame_create s).1.frames, it.handle = s.nextHandle) := by
  cases hreuse : reuseFirstFree s.frames s.nextHandle with
  | some l =>
    simp only [libvmi_frame_create, hreuse]
    exact ⟨trivial, trivial, trivial, reuseFirstFree_some_mem s.nextHandle s.frames l hreuse⟩
  | none =>
    have hall := (reuseFirstFree_none_iff s.nextHandle s.frames).1 hreuse
    have hanyf : s.frames.any (fun it => it.free) = false := by
      simp only [List.any_eq_false]
      intro it hmem
      simp [hall it hmem]
    have hlt : (s.frames.length : Int) < Int.emod s.maxFrames SIZE_T_MOD := by
      simp only [poolCanAcquire, hanyf, Bool.false_or, decide_eq_true_eq] at hcan
      exact hcan
    simp only [libvmi_frame_create, hreuse, if_neg (not_le.2 hlt)]
    exact ⟨trivial, trivial, trivial, ⟨_, List.mem_append_right _ (List.mem_singleton.2 rfl), rfl⟩⟩

theorem find?_frameCreateAt (h : Int) (fh : CFrameHeaders) :
    ∀ l : List tFrameItem, (∃ it ∈ l, it.handle = h) →
      ((frameCreateAt l h fh).find? (fun it => it.handle = h)).map (fun it => it.frame) =
        some { refcount := 1, headers := fh } := by
  intro l
  induction l with
  | nil => intro hex; simp at hex
  | cons a rest ih =>
    intro hex
    by_cases ha : a.handle = h
    · simp only [frameCreateAt, if_pos ha]
      rw [List.find?_cons_of_pos _ (by simpa using ha)]
      simp
    · simp only [frameCreateAt, if_neg ha]
      rw [List.find?_cons_of_neg _ (by simpa using ha)]
      apply ih
      obtain ⟨it, hmem, hh⟩ := hex
      rcases List.mem_cons.1 hmem with rfl | hmem'
      · exact absurd hh ha
      · exact ⟨it, hmem', hh⟩

theorem frameCreateAt_length (h : Int) (fh : CFrameHeaders) :
    ∀ l : List tFrameItem, (frameCreateAt l h fh).length = l.length := by
  intro l
  induction l with
  | nil => rfl
  | cons a rest ih =>
    by_cases ha : a.handle = h
    · simp [frameCreateAt, if_pos ha]
    · simp [frameCreateAt, if_neg ha, ih]

/-- Successful acquire-with-init: when validation passes and the pool can
satisfy the acquire, the returned handle is the next counter value and
the frame stored under it holds exactly the built headers with reference
count 1. -/
theorem frame_create_ext_success (s : PoolState) (init : vMIFrameInitStruct)
    (fh : CFrameHeaders) (hval : validateAndBuildHeaders init = some fh)
    (hnn : 0 ≤ s.nextHandle) (hcan : poolCanAcquire s = true) :
    (libvmi_frame_create_ext s init).2 = s.nextHandle ∧
    (libvmi_frame_create_ext s init).2 ≠ LIBVMI_INVALID_HANDLE ∧
    libvMI_frame_get (libvmi_frame_create_ext s init).1 s.nextHandle =
      some { refcount := 1, headers := fh } ∧
    libvMI_frame_getsize (libvmi_frame_create_ext s init).1
      (libvmi_frame_create_ext s init).2 = fh.mediaSize := by
  obtain ⟨hret, hnext, hmax, hmem⟩ := frame_create_of_canAcquire s hcan
  have hne : (libvmi_frame_create s).2 ≠ LIBVMI_INVALID_HANDLE := by
    rw [hret]; unfold LIBVMI_INVALID_HANDLE; omega
  have hext : libvmi_frame_create_ext s init =
      ({ (libvmi_frame_create s).1 with
          frames := frameCreateAt (libvmi_frame_create s).1.frames
            (libvmi_frame_create s).2 fh }, (libvmi_frame_create s).2) := by
    simp only [libvmi_frame_create_ext, hval, if_pos hne]
  have hfind := find?_frameCreateAt s.nextHandle fh (libvmi_frame_create s).1.frames hmem
  rw [hret] at hext
  have hget : libvMI_frame_get
      ({ (libvmi_frame_create s).1 with
          frames := frameCreateAt (libvmi_frame_create s).1.frames s.nextHandle fh }) s.nextHandle =
      some { refcount := 1, headers := fh } := by
    simp only [libvMI_frame_get]
    exact hfind
  rw [hext]
  refine ⟨rfl, by unfold LIBVMI_INVALID_HANDLE; omega, hget, ?_⟩
  simp only [libvMI_frame_getsize, hget]

/-- The derived video size as the claims state it: width x height x
pixel_bits / 8, pixel_bits read off the provided depth and sampling
format. -/
def claimVideoSize (init : vMIFrameInitStruct) : Int :=
  Int.tdiv (init._video_width * init._video_height *
    _calculate_pixel_size_in_bits
      { CFrameHeaders.init with depth := init._video_depth,
                                smpfmt := init._video_smpfmt }) 8

/-- Validation failure of libvmi_frame_create_ext, as the claims state
it: a fully specified video frame whose provided size disagrees with the
derived size, or an audio frame without a positive size. -/
def validationFails (init : vMIFrameInitStruct) : Prop :=
  (init._media_format = MEDIAFORMAT.VIDEO ∧ 0 < init._media_size ∧
    0 < init._video_width ∧ 0 < init._video_height ∧ 0 < init._video_depth ∧
    0 < init._video_smpfmt ∧ init._media_size ≠ claimVideoSize init) ∨
  (init._media_format = MEDIAFORMAT.AUDIO ∧ init._media_size ≤ 0)

theorem calculate_pixel_congr (fh fh' : CFrameHeaders)
    (hd : fh.depth = fh'.depth) (hs : fh.smpfmt = fh'.smpfmt) :
    _calculate_pixel_size_in_bits fh = _calculate_pixel_size_in_bits fh' := by
  simp only [_calculate_pixel_size_in_bits, hd, hs]

theorem videoCodeSize_eq_claim (init : vMIFrameInitStruct) (fh1 : CFrameHeaders)
    (hd : 0 < init._video_depth) (hf : 0 < init._video_smpfmt) :
    videoCodeSize init fh1 = claimVideoSize init := by
  unfold videoCodeSize claimVideoSize
  congr 1
  congr 1
  apply calculate_pixel_congr
  · simp [videoHeaders, if_pos hd, if_pos hf]
  · simp [videoHeaders, if_pos hf]

theorem video_none_iff_aux (init : vMIFrameInitStruct) (fh1 : CFrameHeaders)
    (hfmt : init._media_format = MEDIAFORMAT.VIDEO) :
    ((if init._media_size ≤ 0 then
        some { videoHeaders init fh1 with mediaSize := videoCodeSize init fh1 }
      else if init._media_size > 0 ∧ init._video_width > 0 ∧ init._video_height > 0 ∧
              init._video_depth > 0 ∧ init._video_smpfmt > 0 then
        if init._media_size ≠ videoCodeSize init fh1 then none
        else some (videoHeaders init fh1)
      else some (videoHeaders init fh1)) = none) ↔ validationFails init := by
  constructor
  · intro hnone
    by_cases h2 : init._media_size ≤ 0
    · rw [if_pos h2] at hnone
      exact Option.noConfusion hnone
    · rw [if_neg h2] at hnone
      by_cases h3 : init._media_size > 0 ∧ init._video_width > 0 ∧ init._video_height > 0 ∧
          init._video_depth > 0 ∧ init._video_smpfmt > 0
      · rw [if_pos h3] at hnone
        by_cases h4 : init._media_size ≠ videoCodeSize init fh1
        · obtain ⟨hms, hw, hh, hd, hf⟩ := h3
          refine Or.inl ⟨hfmt, hms, hw, hh, hd, hf, ?_⟩
          rw [← videoCodeSize_eq_claim init fh1 hd hf]
          exact h4
        · rw [if_neg h4] at hnone
          exact Option.noConfusion hnone
      · rw [if_neg h3] at hnone
        exact Option.noConfusion hnone
  · intro hval
    rcases hval with ⟨-, hms, hw, hh, hd, hf, hne⟩ | ⟨habs, -⟩
    · have h2 : ¬ init._media_size ≤ 0 := by omega
      have h3 : init._media_size > 0 ∧ init._video_width > 0 ∧ init._video_height > 0 ∧
          init._video_depth > 0 ∧ init._video_smpfmt > 0 := ⟨hms, hw, hh, hd, hf⟩
      have h4 : init._media_size ≠ videoCodeSize init fh1 := by
        rw [videoCodeSize_eq_claim init fh1 hd hf]
        exact hne
      rw [if_neg h2, if_pos h3, if_pos h4]
    · rw [hfmt] at habs
      exact MEDIAFORMAT.noConfusion habs

theorem validateAndBuildHeaders_none_iff (init : vMIFrameInitStruct) :
    validateAndBuildHeaders init = none ↔ validationFails init := by
  unfold validateAndBuildHeaders
  cases hfmt : init._media_format with
  | VIDEO =>
    simp only [hfmt, if_true]
    exact video_none_iff_aux init _ hfmt
  | AUDIO =>
    simp only [hfmt, if_true, if_false]
    by_cases h2 : init._media_size ≤ 0
    · simp only [if_pos h2, validationFails, hfmt]
      simp [h2]
    · simp only [if_neg h2, validationFails, hfmt]
      simp [h2]
  | DATA =>
    simp only [hfmt, if_false]
    simp [validationFails, hfmt]

theorem videoHeaders_mediaFormat (init : vMIFrameInitStruct) (fh1 : CFrameHeaders) :
    (videoHeaders init fh1).mediaFormat = fh1.mediaFormat := by
  unfold videoHeaders
  split_ifs <;> rfl

theorem vabh_mediaFormat (init : vMIFrameInitStruct) (fh : CFrameHeaders)
    (h : validateAndBuildHeaders init = some fh) :
    fh.mediaFormat = init._media_format := by
  unfold validateAndBuildHeaders at h
  cases hfmt : init._media_format with
  | VIDEO =>
    simp only [hfmt, if_true] at h
    split_ifs at h <;> cases h <;> simp [videoHeaders_mediaFormat]
  | AUDIO =>
    simp only [hfmt, if_false, if_true] at h
    split_ifs at h <;> cases h <;> simp [videoHeaders_mediaFormat]
  | DATA =>
    simp only [hfmt, if_false] at h
    split_ifs at h <;> cases h <;> simp [videoHeaders_mediaFormat]

theorem create_ret_cases (s : PoolState) :
    ((libvmi_frame_create s).2 = LIBVMI_INVALID_HANDLE ∧ (libvmi_frame_create s).1 = s) ∨
    ((libvmi_frame_create s).2 = s.nextHandle ∧
      (libvmi_frame_create s).1.nextHandle = s.nextHandle + 1) := by
  unfold libvmi_frame_create
  cases hreuse : reuseFirstFree s.frames s.nextHandle with
  | some l => right; exact ⟨rfl, rfl⟩
  | none =>
    by_cases hcap : (s.frames.length : Int) ≥ Int.emod s.maxFrames SIZE_T_MOD
    · left; rw [if_pos hcap]; exact ⟨rfl, rfl⟩
    · right; rw [if_neg hcap]; exact ⟨rfl, rfl⟩

theorem applyOp_nextHandle_le (s : PoolState) (op : PoolOp) :
    s.nextHandle ≤ (applyOp s op).1.nextHandle := by
  cases op with
  | create =>
    rcases create_ret_cases s with ⟨-, heq⟩ | ⟨-, heq⟩
    · simp [applyOp, heq]
    · simp [applyOp, heq]
  | release h =>
    simp only [applyOp, libvmi_frame_release]
    cases releaseInList s.frames h with
    | some r => simp
    | none => simp
  | addref h =>
    simp only [applyOp, libvmi_frame_addref]
    cases addrefInList s.frames h with
    | some r => simp
    | none => simp

theorem runOps_nextHandle_lb :
    ∀ (ops : List PoolOp) (s : PoolState) (h : Int),
      h ∈ (runOps s ops).2 → s.nextHandle ≤ h := by
  intro ops
  induction ops with
  | nil => intro s h hmem; simp [runOps] at hmem
  | cons op rest ih =>
    intro s h hmem
    have hstep := applyOp_nextHandle_le s op
    cases op with
    | create =>
      simp only [runOps] at hmem
      by_cases hsucc : (applyOp s PoolOp.create).2 ≠ LIBVMI_INVALID_HANDLE
      · rw [if_pos hsucc] at hmem
        rcases List.mem_cons.1 hmem with rfl | hmem'
        · rcases create_ret_cases s with ⟨habs, -⟩ | ⟨hret, -⟩
          · exact absurd habs hsucc
          · exact le_of_eq hret.symm
        · exact le_trans hstep (ih _ h hmem')
      · rw [if_neg hsucc] at hmem
        exact le_trans hstep (ih _ h hmem)
    | release hh =>
      simp only [runOps] at hmem
      exact le_trans hstep (ih _ h hmem)
    | addref hh =>
      simp only [runOps] at hmem
      exact le_trans hstep (ih _ h hmem)

theorem runOps_pairwise_lt :
    ∀ (ops : List PoolOp) (s : PoolState), ((runOps s ops).2).Pairwise (· < ·) := by
  intro ops
  induction ops with
  | nil => intro s; simp [runOps]
  | cons op rest ih =>
    intro s
    cases op with
    | create =>
      simp only [runOps]
      by_cases hsucc : (applyOp s PoolOp.create).2 ≠ LIBVMI_INVALID_HANDLE
      · rw [if_pos hsucc]
        refine List.Pairwise.cons ?_ (ih _)
        intro h hmem
        rcases create_ret_cases s with ⟨habs, -⟩ | ⟨hret, hnext⟩
        · exact absurd habs hsucc
        · have hlb := runOps_nextHandle_lb rest (applyOp s PoolOp.create).1 h hmem
          have : (applyOp s PoolOp.create).2 = s.nextHandle := hret
          rw [this]
          have : (applyOp s PoolOp.create).1.nextHandle = s.nextHandle + 1 := hnext
          omega
      · rw [if_neg hsucc]
        exact ih _
    | release hh =>
      simp only [runOps]
      exact ih _
    | addref hh =>
      simp only [runOps]
      exact ih _

theorem reuse_then_release (h : Int) :
    ∀ (l l' : List tFrameItem),
      (∀ it ∈ l, it.handle < h) →
      (∀ it ∈ l, it.free = true → it.frame.refcount = 0) →
      reuseFirstFree l h = some l' →
      ∃ l'', releaseInList l' h = some (l'', 0) ∧
        l''.map (fun it => it.free) = l.map (fun it => it.free) ∧
        l''.length = l.length := by
  intro l
  induction l with
  | nil => intro l' _ _ hr; simp [reuseFirstFree] at hr
  | cons a rest ih =>
    intro l' hlt hfree0 hr
    by_cases hf : a.free
    · simp only [reuseFirstFree, if_pos hf, Option.some.injEq] at hr
      have hc : a.frame.refcount = 0 := hfree0 a (List.mem_cons_self a rest) hf
      refine ⟨{ handle := LIBVMI_INVALID_HANDLE,
                frame := { a.frame with refcount := 0 },
                free := true } :: rest, ?_, ?_, ?_⟩
      · rw [← hr]
        simp only [releaseInList, if_pos rfl]
        rw [hc]
        norm_num
      · simp [hf]
      · simp
    · rw [show reuseFirstFree (a :: rest) h = (reuseFirstFree rest h).map (fun r => a :: r) from by
            simp only [reuseFirstFree, if_neg hf]] at hr
      rw [Option.map_eq_some'] at hr
      obtain ⟨r', hr', rfl⟩ := hr
      have hane : a.handle ≠ h := ne_of_lt (hlt a (List.mem_cons_self a rest))
      obtain ⟨l'', h1, h2, h3⟩ := ih r'
        (fun it hm => hlt it (List.mem_cons_of_mem a hm))
        (fun it hm => hfree0 it (List.mem_cons_of_mem a hm)) hr'
      refine ⟨a :: l'', ?_, ?_, ?_⟩
      · rw [show releaseInList (a :: r') h = (releaseInList r' h).map (fun r => (a :: r.1, r.2)) from by
              simp only [releaseInList, if_neg hane], h1]
        simp
      · simp [h2, hf]
      · simp [h3]

theorem release_appended (h : Int) (fh : CFrameHeaders) :
    ∀ l : List tFrameItem, (∀ it ∈ l, it.handle ≠ h) →
      releaseInList (l ++ [{ handle := h, frame := { refcount := 1, headers := fh },
                             free := false }]) h =
        some (l ++ [{ handle := LIBVMI_INVALID_HANDLE,
                      frame := { refcount := 0, headers := fh },
                      free := true }], 0) := by
  intro l
  induction l with
  | nil =>
    intro _
    simp only [List.nil_append, releaseInList, if_pos rfl]
    norm_num
  | cons a rest ih =>
    intro hall
    have ha : a.handle ≠ h := hall a (List.mem_cons_self a rest)
    simp only [List.cons_append, releaseInList, if_neg ha, List.append_eq,
      ih (fun it hm => hall it (List.mem_cons_of_mem a hm)), Option.map_some]
    rfl

theorem find?_enqueueOnOutput (hO hF : Int) :
    ∀ (outs : List CvMIOutput) (o : CvMIOutput),
      outs.find? (fun o => o.handle = hO) = some o →
      (enqueueOnOutput outs hO hF).find? (fun o => o.handle = hO) =
        some { o with queue := o.queue ++ [hF] } := by
  intro outs
  induction outs with
  | nil => intro o hf; simp [List.find?] at hf
  | cons a rest ih =>
    intro o hf
    by_cases ha : a.handle = hO
    · rw [List.find?_cons_of_pos _ (by simpa using ha)] at hf
      cases hf
      simp only [enqueueOnOutput, if_pos ha]
      rw [List.find?_cons_of_pos _ (by simpa using ha)]
    · rw [List.find?_cons_of_neg _ (by simpa using ha)] at hf
      simp only [enqueueOnOutput, if_neg ha]
      rw [List.find?_cons_of_neg _ (by simpa using ha)]
      exact ih o hf

theorem appendLast_nil : ∀ ls : List (List Char), appendLast ls [] = ls := by
  intro ls
  induction ls with
  | nil => rfl
  | cons b bs ih =>
    cases bs with
    | nil => simp [appendLast]
    | cons c cs => simp only [appendLast] at ih ⊢; rw [ih]

theorem appendLast_concat (x y : List Char) :
    ∀ ls : List (List Char), appendLast (ls ++ [x]) y = ls ++ [x ++ y] := by
  intro ls
  induction ls with
  | nil => simp [appendLast]
  | cons b bs ih =>
    obtain ⟨c, cs, hcc⟩ : ∃ c cs, bs ++ [x] = c :: cs := by
      cases bs with
      | nil => exact ⟨x, [], rfl⟩
      | cons d ds => exact ⟨d, ds ++ [x], by simp⟩
    rw [List.cons_append, hcc]
    simp only [appendLast]
    rw [← hcc, ih]
    simp

theorem appendLast_append_left (a b : List Char) :
    ∀ ls : List (List Char), appendLast (appendLast ls a) b = appendLast ls (a ++ b) := by
  intro ls
  induction ls with
  | nil => rfl
  | cons c cs ih =>
    cases cs with
    | nil => simp [appendLast]
    | cons d ds =>
      obtain ⟨e, es, hee⟩ : ∃ e es, appendLast (d :: ds) a = e :: es := by
        cases ds with
        | nil => exact ⟨d ++ a, [], rfl⟩
        | cons f fs => exact ⟨d, appendLast (f :: fs) a, rfl⟩
      simp only [appendLast]
      rw [hee]
      simp only [appendLast]
      rw [← hee]
      rw [show appendLast (appendLast (d :: ds) a) b = appendLast (d :: ds) (a ++ b) from ih]

/-- How a partially built ParseConfiguration with an open bucket combines
with the spec-side parse of the remaining tokens: the module bucket of
the remainder extends the currently open bucket, the remaining buckets
are appended. -/
def mergePC (pc : ParseConfiguration) (tgt : PinTarget) (sp : ParseConfiguration) :
    ParseConfiguration :=
  match tgt with
  | PinTarget.module =>
    { moduleConfiguration := pc.moduleConfiguration ++ sp.moduleConfiguration,
      inputConfigurations := pc.inputConfigurations ++ sp.inputConfigurations,
      outputConfigurations := pc.outputConfigurations ++ sp.outputConfigurations }
  | PinTarget.input =>
    { moduleConfiguration := pc.moduleConfiguration,
      inputConfigurations :=
        appendLast pc.inputConfigurations sp.moduleConfiguration ++ sp.inputConfigurations,
      outputConfigurations := pc.outputConfigurations ++ sp.outputConfigurations }
  | PinTarget.output =>
    { moduleConfiguration := pc.moduleConfiguration,
      inputConfigurations := pc.inputConfigurations ++ sp.inputConfigurations,
      outputConfigurations :=
        appendLast pc.outputConfigurations sp.moduleConfiguration ++ sp.outputConfigurations }

theorem parseLoop_merge :
    ∀ (toks : List (List Char)) (tgt : PinTarget) (pc : ParseConfiguration),
      parseLoop toks tgt pc = mergePC pc tgt (parseConfigurationSpec toks) := by
  intro toks
  induction toks with
  | nil =>
    intro tgt pc
    cases tgt <;> simp [parseLoop, parseConfigurationSpec, mergePC, appendLast_nil]
  | cons tok rest ih =>
    intro tgt pc
    by_cases hnil : tok = []
    · have hkept : ¬ keptTok tok := fun hk => hk.1 hnil
      rw [show parseLoop (tok :: rest) tgt pc = parseLoop rest tgt pc from by
            simp only [parseLoop, if_pos hnil],
          show parseConfigurationSpec (tok :: rest) = parseConfigurationSpec rest from by
            simp only [parseConfigurationSpec, if_pos hkept]]
      exact ih tgt pc
    · by_cases hlen : (splitCh '=' tok).length = 2
      · have hkept : keptTok tok := ⟨hnil, hlen⟩
        have hlen' : ¬ (splitCh '=' tok).length ≠ 2 := fun hcon => hcon hlen
        have hkept' : ¬ ¬ keptTok tok := fun hq => hq hkept
        by_cases hout : tokKey tok = "out_type".toList
        · rw [show parseLoop (tok :: rest) tgt pc = parseLoop rest PinTarget.output
                (appendTok { pc with outputConfigurations := pc.outputConfigurations ++ [[]] }
                  PinTarget.output (tok ++ [','])) from by
                simp only [parseLoop, if_neg hnil, if_neg hlen', if_pos hout],
              show parseConfigurationSpec (tok :: rest) =
                { moduleConfiguration := [],
                  inputConfigurations := (parseConfigurationSpec rest).inputConfigurations,
                  outputConfigurations :=
                    ((tok ++ [',']) ++ (parseConfigurationSpec rest).moduleConfiguration) ::
                      (parseConfigurationSpec rest).outputConfigurations } from by
                simp only [parseConfigurationSpec, if_neg hkept', if_pos hout],
              ih]
          cases tgt <;>
            simp [mergePC, appendTok, appendLast_nil, appendLast_concat, List.append_assoc]
        · by_cases hin : tokKey tok = "in_type".toList
          · rw [show parseLoop (tok :: rest) tgt pc = parseLoop rest PinTarget.input
                  (appendTok { pc with inputConfigurations := pc.inputConfigurations ++ [[]] }
                    PinTarget.input (tok ++ [','])) from by
                  simp only [parseLoop, if_neg hnil, if_neg hlen', if_neg hout, if_pos hin],
                show parseConfigurationSpec (tok :: rest) =
                  { moduleConfiguration := [],
                    inputConfigurations :=
                      ((tok ++ [',']) ++ (parseConfigurationSpec rest).moduleConfiguration) ::
                        (parseConfigurationSpec rest).inputConfigurations,
                    outputConfigurations :=
                      (parseConfigurationSpec rest).outputConfigurations } from by
                  simp only [parseConfigurationSpec, if_neg hkept', if_neg hout, if_pos hin],
                ih]
            cases tgt <;>
              simp [mergePC, appendTok, appendLast_nil, appendLast_concat, List.append_assoc]
          · rw [show parseLoop (tok :: rest) tgt pc =
                  parseLoop rest tgt (appendTok pc tgt (tok ++ [','])) from by
                  simp only [parseLoop, if_neg hnil, if_neg hlen', if_neg hout, if_neg hin],
                show parseConfigurationSpec (tok :: rest) =
                  { parseConfigurationSpec rest with
                      moduleConfiguration :=
                        (tok ++ [',']) ++ (parseConfigurationSpec rest).moduleConfiguration } from by
                  simp only [parseConfigurationSpec, if_neg hkept', if_neg hout, if_neg hin],
                ih]
            cases tgt <;>
              simp [mergePC, appendTok, appendLast_append_left, List.append_assoc]
      · have hkept : ¬ keptTok tok := fun hk => hlen hk.2
        rw [show parseLoop (tok :: rest) tgt pc = parseLoop rest tgt pc from by
              simp only [parseLoop, if_neg hnil, if_pos hlen],
            show parseConfigurationSpec (tok :: rest) = parseConfigurationSpec rest from by
              simp only [parseConfigurationSpec, if_pos hkept]]
        exact ih tgt pc

theorem releaseInList_length (h : Int) :
    ∀ (l : List tFrameItem) (r : List tFrameItem × Int),
      releaseInList l h = some r → r.1.length = l.length := by
  intro l
  induction l with
  | nil => intro r hr; simp [releaseInList] at hr
  | cons a rest ih =>
    intro r hr
    by_cases ha : a.handle = h
    · simp only [releaseInList, if_pos ha, Option.some.injEq] at hr
      simp [← hr]
    · rw [show releaseInList (a :: rest) h =
            (releaseInList rest h).map (fun r => (a :: r.1, r.2)) from by
            simp only [releaseInList, if_neg ha]] at hr
      rw [Option.map_eq_some'] at hr
      obtain ⟨r', hr', rfl⟩ := hr
      simp [ih r' hr']

theorem addrefInList_length (h : Int) :
    ∀ (l : List tFrameItem) (r : List tFrameItem × Int),
      addrefInList l h = some r → r.1.length = l.length := by
  intro l
  induction l with
  | nil => intro r hr; simp [addrefInList] at hr
  | cons a rest ih =>
    intro r hr
    by_cases ha : a.handle = h
    · simp only [addrefInList, if_pos ha, Option.some.injEq] at hr
      simp [← hr]
    · rw [show addrefInList (a :: rest) h =
            (addrefInList rest h).map (fun r => (a :: r.1, r.2)) from by
            simp only [addrefInList, if_neg ha]] at hr
      rw [Option.map_eq_some'] at hr
      obtain ⟨r', hr', rfl⟩ := hr
      simp [ih r' hr']

instance (init : vMIFrameInitStruct) : Decidable (validationFails init) := by
  unfold validationFails; infer_instance

theorem claim_pixel_value (f d k : Int)
    (hk : ((f = SAMPLINGFMT_BGRA ∨ f = SAMPLINGFMT_RGBA) ∧ k = 4) ∨
          ((f = SAMPLINGFMT_BGR ∨ f = SAMPLINGFMT_RGB) ∧ k = 3) ∨
          (f = SAMPLINGFMT_YCbCr_4_2_2 ∧ k = 2)) :
    _calculate_pixel_size_in_bits { CFrameHeaders.init with depth := d, smpfmt := f } =
      k * d := by
  rcases hk with ⟨hf | hf, rfl⟩ | ⟨hf | hf, rfl⟩ | ⟨hf, rfl⟩ <;>
    subst hf <;>
    simp [_calculate_pixel_size_in_bits, SAMPLINGFMT_BGRA, SAMPLINGFMT_RGBA,
      SAMPLINGFMT_BGR, SAMPLINGFMT_RGB, SAMPLINGFMT_YCbCr_4_2_2]

/-- C2 counterexample: the claim quantifies over every call, but on an
exhausted pool (one in-use slot, bound 1) a fully specified video init
with media_size 0 yields the invalid handle, not a valid one. -/
theorem claim_C2_counterexample :
    (libvmi_frame_create_ext
        { frames := [{ handle := 0,
                       frame := { refcount := 1, headers := CFrameHeaders.init },
                       free := false }],
          nextHandle := 1, maxFrames := 1 }
        { _media_format := MEDIAFORMAT.VIDEO, _media_size := 0, _video_width := 1920,
          _video_height := 1080, _video_depth := 8,
          _video_smpfmt := SAMPLINGFMT_YCbCr_4_2_2 }).2 = LIBVMI_INVALID_HANDLE := by
  decide

/-- C2 (amended): whenever the pool can satisfy an acquire (a free slot
exists or the slot count is below the bound) and the handle counter is
non-negative, frame_create_ext with media_format VIDEO, media_size at
most 0, positive width, height and depth and a known sampling format
returns a valid handle, and frame_getsize on that handle equals
width x height x (depth x factor) / 8 with factor 4 for BGRA/RGBA, 3 for
BGR/RGB, 2 for YCbCr 4:2:2. -/
theorem claim_C2_amended (s : PoolState) (init : vMIFrameInitStruct) (k : Int)
    (hfmt : init._media_format = MEDIAFORMAT.VIDEO)
    (hms : init._media_size ≤ 0)
    (hw : 0 < init._video_width) (hh : 0 < init._video_height)
    (hd : 0 < init._video_depth)
    (hk : ((init._video_smpfmt = SAMPLINGFMT_BGRA ∨ init._video_smpfmt = SAMPLINGFMT_RGBA) ∧
            k = 4) ∨
          ((init._video_smpfmt = SAMPLINGFMT_BGR ∨ init._video_smpfmt = SAMPLINGFMT_RGB) ∧
            k = 3) ∨
          (init._video_smpfmt = SAMPLINGFMT_YCbCr_4_2_2 ∧ k = 2))
    (hnn : 0 ≤ s.nextHandle) (hcan : poolCanAcquire s = true) :
    (libvmi_frame_create_ext s init).2 ≠ LIBVMI_INVALID_HANDLE ∧
    libvMI_frame_getsize (libvmi_frame_create_ext s init).1
        (libvmi_frame_create_ext s init).2 =
      Int.tdiv (init._video_width * init._video_height * (init._video_depth * k)) 8 := by
  have hfpos : 0 < init._video_smpfmt := by
    rcases hk with ⟨hf | hf, -⟩ | ⟨hf | hf, -⟩ | ⟨hf, -⟩ <;> rw [hf] <;> decide
  have hms' : ¬ init._media_size > 0 := by omega
  have hval : validateAndBuildHeaders init =
      some { videoHeaders init { CFrameHeaders.init with mediaFormat := init._media_format } with
             mediaSize :=
               videoCodeSize init
                 { CFrameHeaders.init with mediaFormat := init._media_format } } := by
    unfold validateAndBuildHeaders
    simp only [if_neg hms', if_pos hfmt, if_pos hms]
  obtain ⟨h1, h2, h3, h4⟩ := frame_create_ext_success s init _ hval hnn hcan
  refine ⟨h2, ?_⟩
  rw [h4]
  show videoCodeSize init { CFrameHeaders.init with mediaFormat := init._media_format } = _
  rw [videoCodeSize_eq_claim init _ hd hfpos]
  unfold claimVideoSize
  rw [claim_pixel_value init._video_smpfmt init._video_depth k hk]
  congr 1
  ring

/-- Witness for C2 (amended): on the empty pool with the default bound,
the S2 parameters (1920 x 1080, depth 8, YCbCr 4:2:2) give a valid
handle whose frame size is 4,147,200 bytes. -/
theorem claim_C2_witness :
    ((libvmi_frame_create_ext { frames := [], nextHandle := 0, maxFrames := 10 }
        { _media_format := MEDIAFORMAT.VIDEO, _media_size := 0, _video_width := 1920,
          _video_height := 1080, _video_depth := 8,
          _video_smpfmt := SAMPLINGFMT_YCbCr_4_2_2 }).2 ≠ LIBVMI_INVALID_HANDLE ∧
     libvMI_frame_getsize
        (libvmi_frame_create_ext { frames := [], nextHandle := 0, maxFrames := 10 }
          { _media_format := MEDIAFORMAT.VIDEO, _media_size := 0, _video_width := 1920,
            _video_height := 1080, _video_depth := 8,
            _video_smpfmt := SAMPLINGFMT_YCbCr_4_2_2 }).1
        (libvmi_frame_create_ext { frames := [], nextHandle := 0, maxFrames := 10 }
          { _media_format := MEDIAFORMAT.VIDEO, _media_size := 0, _video_width := 1920,
            _video_height := 1080, _video_depth := 8,
            _video_smpfmt := SAMPLINGFMT_YCbCr_4_2_2 }).2 =
       Int.tdiv ((1920 : Int) * 1080 * (8 * 2)) 8) ∧
    Int.tdiv ((1920 : Int) * 1080 * (8 * 2)) 8 = 4147200 := by
  constructor
  · exact claim_C2_amended
      { frames := [], nextHandle := 0, maxFrames := 10 }
      { _media_format := MEDIAFORMAT.VIDEO, _media_size := 0, _video_width := 1920,
        _video_height := 1080, _video_depth := 8,
        _video_smpfmt := SAMPLINGFMT_YCbCr_4_2_2 } 2
      rfl (by decide) (by decide) (by decide) (by decide)
      (Or.inr (Or.inr ⟨rfl, rfl⟩)) (by decide) (by decide)
  · decide

/-- C7 counterexample: the claim says the invalid handle comes back
without an acquire exactly when validation fails, but on an exhausted
pool (bound 0) a valid audio init (media_size 10) also returns the
invalid handle with the pool untouched, while its validation does not
fail. -/
theorem claim_C7_counterexample :
    (libvmi_frame_create_ext { frames := [], nextHandle := 0, maxFrames := 0 }
        { _media_format := MEDIAFORMAT.AUDIO, _media_size := 10, _video_width := 0,
          _video_height := 0, _video_depth := 0, _video_smpfmt := 0 }).2 =
      LIBVMI_INVALID_HANDLE ∧
    (libvmi_frame_create_ext { frames := [], nextHandle := 0, maxFrames := 0 }
        { _media_format := MEDIAFORMAT.AUDIO, _media_size := 10, _video_width := 0,
          _video_height := 0, _video_depth := 0, _video_smpfmt := 0 }).1 =
      { frames := [], nextHandle := 0, maxFrames := 0 } ∧
    ¬ validationFails
        { _media_format := MEDIAFORMAT.AUDIO, _media_size := 10, _video_width := 0,
          _video_height := 0, _video_depth := 0, _video_smpfmt := 0 } := by
  decide

/-- C7 (amended): frame_create_ext returns the invalid handle without
touching the pool whenever validation fails - for VIDEO when width,
height, depth, sampling and a positive media_size are all provided and
media_size differs from the derived size, for AUDIO whenever media_size
is at most 0; when validation passes and the pool can satisfy the
acquire, it acquires a frame and populates its headers and buffer
size. -/
theorem claim_C7_amended (s : PoolState) (init : vMIFrameInitStruct) :
    (validationFails init →
       libvmi_frame_create_ext s init = (s, LIBVMI_INVALID_HANDLE)) ∧
    (¬ validationFails init → 0 ≤ s.nextHandle → poolCanAcquire s = true →
       (libvmi_frame_create_ext s init).2 = s.nextHandle ∧
       (libvmi_frame_create_ext s init).2 ≠ LIBVMI_INVALID_HANDLE ∧
       ∃ fh : CFrameHeaders, validateAndBuildHeaders init = some fh ∧
         fh.mediaFormat = init._media_format ∧
         libvMI_frame_get (libvmi_frame_create_ext s init).1 s.nextHandle =
           some { refcount := 1, headers := fh } ∧
         libvMI_frame_getsize (libvmi_frame_create_ext s init).1
           (libvmi_frame_create_ext s init).2 = fh.mediaSize) := by
  constructor
  · intro hfail
    have hnone := (validateAndBuildHeaders_none_iff init).2 hfail
    simp only [libvmi_frame_create_ext, hnone]
  · intro hok hnn hcan
    cases hsome : validateAndBuildHeaders init with
    | none => exact absurd ((validateAndBuildHeaders_none_iff init).1 hsome) hok
    | some fh =>
      obtain ⟨h1, h2, h3, h4⟩ := frame_create_ext_success s init fh hsome hnn hcan
      exact ⟨h1, h2, fh, rfl, vabh_mediaFormat init fh hsome, h3, h4⟩

/-- Witness for C7 (amended): audio with media_size 0 fails validation
(the S3 scenario) and the call returns the invalid handle leaving the
pool unchanged. -/
theorem claim_C7_witness :
    validationFails
      { _media_format := MEDIAFORMAT.AUDIO, _media_size := 0, _video_width := 0,
        _video_height := 0, _video_depth := 0, _video_smpfmt := 0 } ∧
    libvmi_frame_create_ext { frames := [], nextHandle := 0, maxFrames := 10 }
        { _media_format := MEDIAFORMAT.AUDIO, _media_size := 0, _video_width := 0,
          _video_height := 0, _video_depth := 0, _video_smpfmt := 0 } =
      ({ frames := [], nextHandle := 0, maxFrames := 10 }, LIBVMI_INVALID_HANDLE) :=
  ⟨by decide,
   (claim_C7_amended { frames := [], nextHandle := 0, maxFrames := 10 }
      { _media_format := MEDIAFORMAT.AUDIO, _media_size := 0, _video_width := 0,
        _video_height := 0, _video_depth := 0, _video_smpfmt := 0 }).1 (by decide)⟩

/-- C4: libvMI_send on a registered module returns 0 without touching
registry or pool when no output pin with the given handle exists; returns
-1 when the pin exists but the frame handle is unknown to the pool; and
otherwise returns 0 after delegating the frame to that pin's send, which
appends the frame handle to the pin's queue. -/
theorem claim_C4_send (reg : List Ip2vfModulesEntry) (pool : PoolState)
    (hM hO hF : Int) (entry : Ip2vfModulesEntry)
    (hentry : reg[hM.toNat]? = some entry) :
    (entry.module.outputs.find? (fun o => o.handle = hO) = none →
       libvMI_send reg pool hM hO hF = (reg, pool, 0)) ∧
    (∀ o : CvMIOutput, entry.module.outputs.find? (fun o => o.handle = hO) = some o →
       (libvMI_frame_get pool hF = none →
          libvMI_send reg pool hM hO hF = (reg, pool, -1)) ∧
       (∀ f : CvMIFrame, libvMI_frame_get pool hF = some f →
          (libvMI_send reg pool hM hO hF).2.2 = 0 ∧
          libvMI_get_output (libvMI_send reg pool hM hO hF).1 hM hO =
            some { o with queue := o.queue ++ [hF] })) := by
  have hgo : libvMI_get_output reg hM hO =
      entry.module.outputs.find? (fun o => o.handle = hO) := by
    simp only [libvMI_get_output, hentry]
  constructor
  · intro hnone
    simp only [libvMI_send, hgo, hnone]
  · intro o ho
    constructor
    · intro hfnone
      simp only [libvMI_send, hgo, ho, hfnone]
    · intro f hfsome
      have hlt : hM.toNat < reg.length := by
        by_contra hge
        rw [List.getElem?_eq_none (Nat.le_of_not_lt hge)] at hentry
        exact Option.noConfusion hentry
      have hsend : libvMI_send reg pool hM hO hF =
          (reg.set hM.toNat
            { entry with module :=
                { outputs := enqueueOnOutput entry.module.outputs hO hF } },
           (libvmi_frame_addref pool hF).1, 0) := by
        simp only [libvMI_send, hgo, ho, hfsome, hentry]
      rw [hsend]
      refine ⟨rfl, ?_⟩
      have hset : (reg.set hM.toNat
          { entry with module :=
              { outputs := enqueueOnOutput entry.module.outputs hO hF } })[hM.toNat]? =
          some { entry with module :=
              { outputs := enqueueOnOutput entry.module.outputs hO hF } } :=
        List.getElem?_set_self hlt
      simp only [libvMI_get_output, hset]
      exact find?_enqueueOnOutput hO hF entry.module.outputs o ho

/-- Witness for C4: a one-module registry whose single output pin has
handle 5 and an empty queue, a pool holding frame handle 2: send returns
0 and the pin's queue afterwards is [2]. -/
theorem claim_C4_witness :
    ([{ moduleConfig := [],
        module := { outputs := [{ handle := 5, queue := [] }] } }] :
        List Ip2vfModulesEntry)[(0 : Int).toNat]? =
      some { moduleConfig := [],
             module := { outputs := [{ handle := 5, queue := [] }] } } ∧
    ((libvMI_send
        [{ moduleConfig := [],
           module := { outputs := [{ handle := 5, queue := [] }] } }]
        { frames := [{ handle := 2,
                       frame := { refcount := 1, headers := CFrameHeaders.init },
                       free := false }],
          nextHandle := 3, maxFrames := 10 } 0 5 2).2.2 = 0 ∧
     libvMI_get_output
        (libvMI_send
          [{ moduleConfig := [],
             module := { outputs := [{ handle := 5, queue := [] }] } }]
          { frames := [{ handle := 2,
                         frame := { refcount := 1, headers := CFrameHeaders.init },
                         free := false }],
            nextHandle := 3, maxFrames := 10 } 0 5 2).1 0 5 =
       some { handle := 5, queue := [2] }) := by
  refine ⟨by decide, ?_⟩
  have h := ((claim_C4_send
      [{ moduleConfig := [],
         module := { outputs := [{ handle := 5, queue := [] }] } }]
      { frames := [{ handle := 2,
                     frame := { refcount := 1, headers := CFrameHeaders.init },
                     free := false }],
        nextHandle := 3, maxFrames := 10 } 0 5 2
      { moduleConfig := [],
        module := { outputs := [{ handle := 5, queue := [] }] } }
      (by decide)).2 { handle := 5, queue := [] } (by decide)).2
      { refcount := 1, headers := CFrameHeaders.init } (by decide)
  simpa using h

/-- C8 counterexample: on the empty pool (no free slot), acquire appends
a slot and the immediate release frees it but does not remove it, so the
slot count afterwards is 1, not the 0 of the pre-acquire state. -/
theorem claim_C8_counterexample :
    (libvmi_frame_release
        (libvmi_frame_create { frames := [], nextHandle := 0, maxFrames := 10 }).1
        (libvmi_frame_create { frames := [], nextHandle := 0, maxFrames := 10 }).2).1.frames.length = 1 ∧
    ({ frames := ([] : List tFrameItem), nextHandle := 0,
       maxFrames := 10 } : PoolState).frames.length = 0 := by
  decide

/-- C8 (amended): in a reachable pool state (stored handles below the
counter, free slots at refcount 0, in-use handles non-negative),
frame_create immediately followed by frame_release of the returned
handle restores the free-flag pattern and the slot count when a free
slot existed; when no slot was free and the count was below the bound,
the pool ends with exactly one extra slot, marked free, the pre-existing
flags unchanged; when no slot was free at or above the bound both calls
leave the pool unchanged. -/
theorem claim_C8_amended (s : PoolState)
    (hlt : ∀ it ∈ s.frames, it.handle < s.nextHandle)
    (hfree0 : ∀ it ∈ s.frames, it.free = true → it.frame.refcount = 0)
    (hpos : ∀ it ∈ s.frames, it.free = false → 0 ≤ it.handle)
    (hnn : 0 ≤ s.nextHandle) :
    (s.frames.any (fun it => it.free) = true →
       (libvmi_frame_release (libvmi_frame_create s).1
           (libvmi_frame_create s).2).1.frames.map (fun it => it.free) =
         s.frames.map (fun it => it.free) ∧
       (libvmi_frame_release (libvmi_frame_create s).1
           (libvmi_frame_create s).2).1.frames.length = s.frames.length) ∧
    (s.frames.any (fun it => it.free) = false →
       (s.frames.length : Int) < Int.emod s.maxFrames SIZE_T_MOD →
       (libvmi_frame_release (libvmi_frame_create s).1
           (libvmi_frame_create s).2).1.frames.map (fun it => it.free) =
         s.frames.map (fun it => it.free) ++ [true] ∧
       (libvmi_frame_release (libvmi_frame_create s).1
           (libvmi_frame_create s).2).1.frames.length = s.frames.length + 1) ∧
    (s.frames.any (fun it => it.free) = false →
       (s.frames.length : Int) ≥ Int.emod s.maxFrames SIZE_T_MOD →
       libvmi_frame_release (libvmi_frame_create s).1 (libvmi_frame_create s).2 =
         (s, -1)) := by
  refine ⟨?_, ?_, ?_⟩
  · intro hany
    cases hreuse : reuseFirstFree s.frames s.nextHandle with
    | none =>
      exfalso
      have hall := (reuseFirstFree_none_iff s.nextHandle s.frames).1 hreuse
      obtain ⟨x, hx, hfx⟩ := List.any_eq_true.1 hany
      rw [hall x hx] at hfx
      exact Bool.noConfusion hfx
    | some l' =>
      have hcr : libvmi_frame_create s =
          ({ s with frames := l', nextHandle := s.nextHandle + 1 }, s.nextHandle) := by
        simp only [libvmi_frame_create, hreuse]
      obtain ⟨l'', hrel, hmap, hlen⟩ :=
        reuse_then_release s.nextHandle s.frames l' hlt hfree0 hreuse
      have hr : libvmi_frame_release
          { s with frames := l', nextHandle := s.nextHandle + 1 } s.nextHandle =
          ({ s with frames := l'', nextHandle := s.nextHandle + 1 }, 0) := by
        simp only [libvmi_frame_release, hrel]
      rw [hcr]
      rw [hr]
      exact ⟨hmap, hlen⟩
  · intro hany hcap
    have hall : ∀ it ∈ s.frames, it.free = false := by
      intro it hm
      have := List.any_eq_false.1 hany it hm
      simpa using this
    have hreuse := (reuseFirstFree_none_iff s.nextHandle s.frames).2 hall
    have hcr : libvmi_frame_create s =
        ({ s with
            frames := s.frames ++ [{ handle := s.nextHandle,
                                     frame := { refcount := 1, headers := CFrameHeaders.init },
                                     free := false }],
            nextHandle := s.nextHandle + 1 }, s.nextHandle) := by
      simp only [libvmi_frame_create, hreuse, if_neg (not_le.2 hcap)]
    have hne : ∀ it ∈ s.frames, it.handle ≠ s.nextHandle :=
      fun it hm => ne_of_lt (hlt it hm)
    have hrel := release_appended s.nextHandle CFrameHeaders.init s.frames hne
    have hr : libvmi_frame_release
        { s with
            frames := s.frames ++ [{ handle := s.nextHandle,
                                     frame := { refcount := 1, headers := CFrameHeaders.init },
                                     free := false }],
            nextHandle := s.nextHandle + 1 } s.nextHandle =
        ({ s with
            frames := s.frames ++ [{ handle := LIBVMI_INVALID_HANDLE,
                                     frame := { refcount := 0, headers := CFrameHeaders.init },
                                     free := true }],
            nextHandle := s.nextHandle + 1 }, 0) := by
      simp only [libvmi_frame_release, hrel]
    rw [hcr]
    rw [hr]
    constructor
    · simp
    · simp
  · intro hany hcap
    have hall : ∀ it ∈ s.frames, it.free = false := by
      intro it hm
      have := List.any_eq_false.1 hany it hm
      simpa using this
    have hreuse := (reuseFirstFree_none_iff s.nextHandle s.frames).2 hall
    have hcr : libvmi_frame_create s = (s, LIBVMI_INVALID_HANDLE) := by
      simp only [libvmi_frame_create, hreuse, if_pos hcap]
    rw [hcr]
    have hninv : ∀ it ∈ s.frames, it.handle ≠ LIBVMI_INVALID_HANDLE := by
      intro it hm
      have := hpos it hm (hall it hm)
      unfold LIBVMI_INVALID_HANDLE
      omega
    simp only [libvmi_frame_release, releaseInList_not_found _ _ hninv]

/-- Witness for C8 (amended): a pool with one free slot (refcount 0,
cleared handle): acquire then release keeps the single slot and its free
flag. -/
theorem claim_C8_witness :
    ({ frames := [{ handle := -1,
                    frame := { refcount := 0, headers := CFrameHeaders.init },
                    free := true }],
       nextHandle := 5, maxFrames := 10 } : PoolState).frames.any (fun it => it.free) = true ∧
    ((libvmi_frame_release
        (libvmi_frame_create
          { frames := [{ handle := -1,
                         frame := { refcount := 0, headers := CFrameHeaders.init },
                         free := true }],
            nextHandle := 5, maxFrames := 10 }).1
        (libvmi_frame_create
          { frames := [{ handle := -1,
                         frame := { refcount := 0, headers := CFrameHeaders.init },
                         free := true }],
            nextHandle := 5, maxFrames := 10 }).2).1.frames.map (fun it => it.free) =
      [true] ∧
     (libvmi_frame_release
        (libvmi_frame_create
          { frames := [{ handle := -1,
                         frame := { refcount := 0, headers := CFrameHeaders.init },
                         free := true }],
            nextHandle := 5, maxFrames := 10 }).1
        (libvmi_frame_create
          { frames := [{ handle := -1,
                         frame := { refcount := 0, headers := CFrameHeaders.init },
                         free := true }],
            nextHandle := 5, maxFrames := 10 }).2).1.frames.length = 1) := by
  refine ⟨by decide, ?_⟩
  have h := (claim_C8_amended
      { frames := [{ handle := -1,
                     frame := { refcount := 0, headers := CFrameHeaders.init },
                     free := true }],
        nextHandle := 5, maxFrames := 10 }
      (by decide) (by decide) (by decide) (by decide)).1 (by decide)
  simpa using h

/-- C10: the free-slot scan of frame_create runs before the bound check:
whenever a free slot exists the call succeeds with the next handle and
the slot count does not change, even after the bound has been lowered by
libvMI_set_parameter below the current slot count; the bound only
prevents appending new slots, and no pool operation ever shrinks the
slot table. -/
theorem claim_C10_scan_before_cap :
    (∀ s : PoolState, s.frames.any (fun it => it.free) = true →
       (libvmi_frame_create s).2 = s.nextHandle ∧
       (libvmi_frame_create s).1.frames.length = s.frames.length) ∧
    (∀ (s : PoolState) (m : Int), s.frames.any (fun it => it.free) = true →
       (libvmi_frame_create
           (libvMI_set_parameter s VMIPARAMETER.MAX_FRAMES_IN_LIST m)).2 = s.nextHandle ∧
       (libvmi_frame_create
           (libvMI_set_parameter s VMIPARAMETER.MAX_FRAMES_IN_LIST m)).1.frames.length =
         s.frames.length) ∧
    (∀ s : PoolState, s.frames.length ≤ (libvmi_frame_create s).1.frames.length) ∧
    (∀ (s : PoolState) (h : Int),
       (libvmi_frame_release s h).1.frames.length = s.frames.length) ∧
    (∀ (s : PoolState) (h : Int),
       (libvmi_frame_addref s h).1.frames.length = s.frames.length) := by
  have key : ∀ s : PoolState, s.frames.any (fun it => it.free) = true →
      (libvmi_frame_create s).2 = s.nextHandle ∧
      (libvmi_frame_create s).1.frames.length = s.frames.length := by
    intro s hany
    cases hreuse : reuseFirstFree s.frames s.nextHandle with
    | none =>
      exfalso
      have hall := (reuseFirstFree_none_iff s.nextHandle s.frames).1 hreuse
      obtain ⟨x, hx, hfx⟩ := List.any_eq_true.1 hany
      rw [hall x hx] at hfx
      exact Bool.noConfusion hfx
    | some l' =>
      have hcr : libvmi_frame_create s =
          ({ s with frames := l', nextHandle := s.nextHandle + 1 }, s.nextHandle) := by
        simp only [libvmi_frame_create, hreuse]
      rw [hcr]
      exact ⟨rfl, reuseFirstFree_length s.nextHandle s.frames l' hreuse⟩
  refine ⟨key, ?_, ?_, ?_, ?_⟩
  · intro s m hany
    exact key { s with maxFrames := m } hany
  · intro s
    cases hreuse : reuseFirstFree s.frames s.nextHandle with
    | some l' =>
      have hcr : libvmi_frame_create s =
          ({ s with frames := l', nextHandle := s.nextHandle + 1 }, s.nextHandle) := by
        simp only [libvmi_frame_create, hreuse]
      rw [hcr]
      exact le_of_eq (reuseFirstFree_length s.nextHandle s.frames l' hreuse).symm
    | none =>
      by_cases hcap : (s.frames.length : Int) ≥ Int.emod s.maxFrames SIZE_T_MOD
      · have : libvmi_frame_create s = (s, LIBVMI_INVALID_HANDLE) := by
          simp only [libvmi_frame_create, hreuse, if_pos hcap]
        rw [this]
      · have : libvmi_frame_create s =
            ({ s with
                frames := s.frames ++ [{ handle := s.nextHandle,
                                         frame := { refcount := 1,
                                                    headers := CFrameHeaders.init },
                                         free := false }],
                nextHandle := s.nextHandle + 1 }, s.nextHandle) := by
          simp only [libvmi_frame_create, hreuse, if_neg hcap]
        rw [this]
        simp
  · intro s h
    unfold libvmi_frame_release
    cases hrel : releaseInList s.frames h with
    | some r => simpa using releaseInList_length h s.frames r hrel
    | none => rfl
  · intro s h
    unfold libvmi_frame_addref
    cases hrel : addrefInList s.frames h with
    | some r => simpa using addrefInList_length h s.frames r hrel
    | none => rfl

/-- Witness for C10: a pool whose slot count 2 already exceeds the bound
1 but still holds a free slot: frame_create succeeds with the next
handle 7 and keeps the slot count at 2. -/
theorem claim_C10_witness :
    ({ frames := [{ handle := 4,
                    frame := { refcount := 1, headers := CFrameHeaders.init },
                    free := false },
                  { handle := -1,
                    frame := { refcount := 0, headers := CFrameHeaders.init },
                    free := true }],
       nextHandle := 7, maxFrames := 1 } : PoolState).frames.any (fun it => it.free) = true ∧
    ((libvmi_frame_create
        { frames := [{ handle := 4,
                       frame := { refcount := 1, headers := CFrameHeaders.init },
                       free := false },
                     { handle := -1,
                       frame := { refcount := 0, headers := CFrameHeaders.init },
                       free := true }],
          nextHandle := 7, maxFrames := 1 }).2 = 7 ∧
     (libvmi_frame_create
        { frames := [{ handle := 4,
                       frame := { refcount := 1, headers := CFrameHeaders.init },
                       free := false },
                     { handle := -1,
                       frame := { refcount := 0, headers := CFrameHeaders.init },
                       free := true }],
          nextHandle := 7, maxFrames := 1 }).1.frames.length = 2) := by
  refine ⟨by decide, ?_⟩
  have h := claim_C10_scan_before_cap.1
      { frames := [{ handle := 4,
                     frame := { refcount := 1, headers := CFrameHeaders.init },
                     free := false },
                   { handle := -1,
                     frame := { refcount := 0, headers := CFrameHeaders.init },
                     free := true }],
        nextHandle := 7, maxFrames := 1 } (by decide)
  simpa using h

set_option maxRecDepth 8000

/-- C1: frame_create scans the slot table in insertion order and reuses
the first free slot with a freshly incremented handle; with no free slot
it appends a new slot while the count is below the bound and returns the
invalid handle once the count has reached it; across any run the handles
granted by successful creates are strictly increasing; and the cap-3
scenario holds: three acquires return 0 < 1 < 2, the fourth fails,
releasing handle 1 to zero lets the next acquire return 3 > 2 reusing the
middle slot while CUR_FRAMES_IN_LIST stays 3. -/
theorem claim_C1_frame_create_pool :
    (∀ (s : PoolState) (ops : List PoolOp),
       ((runOps s ops).2).Pairwise (fun a b => a < b)) ∧
    (∀ (s : PoolState) (i : Nat) (it : tFrameItem),
       s.frames[i]? = some it → it.free = true →
       (∀ j, j < i → ∀ it' : tFrameItem, s.frames[j]? = some it' → it'.free = false) →
       libvmi_frame_create s =
         ({ s with
             frames := s.frames.set i
               { handle := s.nextHandle,
                 frame := { it.frame with refcount := it.frame.refcount + 1 },
                 free := false },
             nextHandle := s.nextHandle + 1 }, s.nextHandle)) ∧
    (∀ s : PoolState, (∀ it ∈ s.frames, it.free = false) →
       0 ≤ s.maxFrames → s.maxFrames < SIZE_T_MOD →
       (((s.frames.length : Int) < s.maxFrames →
           libvmi_frame_create s =
             ({ s with
                 frames := s.frames ++ [{ handle := s.nextHandle,
                                          frame := { refcount := 1,
                                                     headers := CFrameHeaders.init },
                                          free := false }],
                 nextHandle := s.nextHandle + 1 }, s.nextHandle)) ∧
        (s.maxFrames ≤ (s.frames.length : Int) →
           libvmi_frame_create s = (s, LIBVMI_INVALID_HANDLE)))) ∧
    (let s0 : PoolState := { frames := [], nextHandle := 0, maxFrames := 3 }
     let r0 := libvmi_frame_create s0
     let r1 := libvmi_frame_create r0.1
     let r2 := libvmi_frame_create r1.1
     let r3 := libvmi_frame_create r2.1
     let r4 := libvmi_frame_release r3.1 r1.2
     let r5 := libvmi_frame_create r4.1
     r0.2 = 0 ∧ r1.2 = 1 ∧ r2.2 = 2 ∧ r0.2 < r1.2 ∧ r1.2 < r2.2 ∧
     r3.2 = LIBVMI_INVALID_HANDLE ∧ r4.2 = 0 ∧ r5.2 = 3 ∧ r2.2 < r5.2 ∧
     r5.1.frames.map (fun it => it.handle) = [0, 3, 2] ∧
     r5.1.frames.map (fun it => it.free) = [false, false, false] ∧
     libvMI_get_parameter r3.1 VMIPARAMETER.CUR_FRAMES_IN_LIST = 3 ∧
     libvMI_get_parameter r5.1 VMIPARAMETER.CUR_FRAMES_IN_LIST = 3) := by
  refine ⟨fun s ops => runOps_pairwise_lt ops s, ?_, ?_, by decide⟩
  · intro s i it hget hfree hfirst
    have hreuse := reuseFirstFree_found s.nextHandle s.frames i it hget hfree hfirst
    simp only [libvmi_frame_create, hreuse]
  · intro s hall h0 hbig
    have hreuse := (reuseFirstFree_none_iff s.nextHandle s.frames).2 hall
    have hemod : Int.emod s.maxFrames SIZE_T_MOD = s.maxFrames :=
      Int.emod_eq_of_lt h0 hbig
    constructor
    · intro hlen
      simp only [libvmi_frame_create, hreuse, hemod, if_neg (not_le.2 hlen)]
    · intro hge
      simp only [libvmi_frame_create, hreuse, hemod, if_pos hge]

/-- Witness for C1: on a full one-slot pool at bound 1 with no free slot,
frame_create fails with the invalid handle; on the same pool with the
bound raised to 2 it appends and returns the next handle 1. -/
theorem claim_C1_witness :
    libvmi_frame_create
        { frames := [{ handle := 0,
                       frame := { refcount := 1, headers := CFrameHeaders.init },
                       free := false }],
          nextHandle := 1, maxFrames := 1 } =
      ({ frames := [{ handle := 0,
                      frame := { refcount := 1, headers := CFrameHeaders.init },
                      free := false }],
         nextHandle := 1, maxFrames := 1 }, LIBVMI_INVALID_HANDLE) ∧
    (libvmi_frame_create
        { frames := [{ handle := 0,
                       frame := { refcount := 1, headers := CFrameHeaders.init },
                       free := false }],
          nextHandle := 1, maxFrames := 2 }).2 = 1 := by
  constructor
  · exact ((claim_C1_frame_create_pool.2.2.1
      { frames := [{ handle := 0,
                     frame := { refcount := 1, headers := CFrameHeaders.init },
                     free := false }],
        nextHandle := 1, maxFrames := 1 }
      (by decide) (by decide) (by decide)).2 (by decide))
  · have h := (claim_C1_frame_create_pool.2.2.1
      { frames := [{ handle := 0,
                     frame := { refcount := 1, headers := CFrameHeaders.init },
                     free := false }],
        nextHandle := 1, maxFrames := 2 }
      (by decide) (by decide) (by decide)).1 (by decide)
    rw [h]

/-- C3 counterexample: on the claim's example input the parser does not
produce the bare comma-joined substrings the claim names; every bucket
carries a trailing comma (the loop appends token + "," for each kept
token). -/
theorem claim_C3_counterexample :
    ¬ (_parseConfiguration "type=A,x=1,in_type=udp,p=5,out_type=tcp,q=6,out_type=tcp,r=7" =
        { moduleConfiguration := "type=A,x=1".toList,
          inputConfigurations := ["in_type=udp,p=5".toList],
          outputConfigurations := ["out_type=tcp,q=6".toList, "out_type=tcp,r=7".toList] }) := by
  decide

/-- C3 (amended): for every configuration string the parser splits on
commas, skips empty tokens and tokens that do not split on the equals
sign into exactly two parts, routes every kept token to the currently
active bucket - out_type opening a new output bucket and in_type a new
input bucket, the delimiter included, tokens before any delimiter going
to the module bucket - and emits each bucket as its tokens joined with a
trailing comma after every token; on the claim's input this yields
module type=A,x=1, one input bucket in_type=udp,p=5, and output buckets
out_type=tcp,q=6, and out_type=tcp,r=7, each with its trailing comma. -/
theorem claim_C3_amended :
    (∀ config : String,
       _parseConfiguration config = parseConfigurationSpec (splitCh ',' config.toList)) ∧
    _parseConfiguration "type=A,x=1,in_type=udp,p=5,out_type=tcp,q=6,out_type=tcp,r=7" =
      { moduleConfiguration := "type=A,x=1,".toList,
        inputConfigurations := ["in_type=udp,p=5,".toList],
        outputConfigurations := ["out_type=tcp,q=6,".toList, "out_type=tcp,r=7,".toList] } := by
  constructor
  · intro config
    rw [_parseConfiguration, parseLoop_merge]
    simp [mergePC]
  · decide

/-- Witness for C5: on a one-slot pool holding handle 7 with reference
count 2, releasing handle 7 returns 1. -/
theorem claim_C5_witness :
    (libvmi_frame_release
        { frames := [{ handle := 7,
                       frame := { refcount := 2, headers := CFrameHeaders.init },
                       free := false }],
          nextHandle := 8, maxFrames := 10 } 7).2 = 1 := by
  have h := (claim_C5_frame_release
      { frames := [{ handle := 7,
                     frame := { refcount := 2, headers := CFrameHeaders.init },
                     free := false }],
        nextHandle := 8, maxFrames := 10 } 7).2 0
      { handle := 7, frame := { refcount := 2, headers := CFrameHeaders.init }, free := false }
      (by decide) rfl (fun j hj => absurd hj (Nat.not_lt_zero j))
  simpa using h.1

/-- Witness for C9: on a one-slot pool holding live handle 3 with
reference count 1, addref returns 2, the following release returns 1 and
the pool state is restored exactly. -/
theorem claim_C9_witness :
    (libvmi_frame_addref
        { frames := [{ handle := 3,
                       frame := { refcount := 1, headers := CFrameHeaders.init },
                       free := false }],
          nextHandle := 4, maxFrames := 10 } 3).2 = 2 ∧
    (libvmi_frame_release
        (libvmi_frame_addref
          { frames := [{ handle := 3,
                         frame := { refcount := 1, headers := CFrameHeaders.init },
                         free := false }],
            nextHandle := 4, maxFrames := 10 } 3).1 3).2 = 1 ∧
    (libvmi_frame_release
        (libvmi_frame_addref
          { frames := [{ handle := 3,
                         frame := { refcount := 1, headers := CFrameHeaders.init },
                         free := false }],
            nextHandle := 4, maxFrames := 10 } 3).1 3).1 =
      { frames := [{ handle := 3,
                     frame := { refcount := 1, headers := CFrameHeaders.init },
                     free := false }],
        nextHandle := 4, maxFrames := 10 } := by
  have h := claim_C9_addref_release
      { frames := [{ handle := 3,
                     frame := { refcount := 1, headers := CFrameHeaders.init },
                     free := false }],
        nextHandle := 4, maxFrames := 10 } 3
      { refcount := 1, headers := CFrameHeaders.init } (by decide) (by decide)
  simpa using h

/-- C6 counterexample: with three modules A, B, C registered at handles
0, 1, 2, closing handle 0 erases the entry and shifts the vector, so
handle 1 afterwards designates C, not the module B it designated before
the close. -/
theorem claim_C6_counterexample :
    ¬ ((libvMI_close
          [{ moduleConfig := "a".toList, module := { outputs := [] } },
           { moduleConfig := "b".toList, module := { outputs := [] } },
           { moduleConfig := "c".toList, module := { outputs := [] } }] 0).1[(1 : Nat)]? =
        some { moduleConfig := "b".toList, module := { outputs := [] } }) ∧
    (libvMI_close
        [{ moduleConfig := "a".toList, module := { outputs := [] } },
         { moduleConfig := "b".toList, module := { outputs := [] } },
         { moduleConfig := "c".toList, module := { outputs := [] } }] 0).1[(1 : Nat)]? =
      some { moduleConfig := "c".toList, module := { outputs := [] } } := by
  constructor
  · decide
  · decide

/-- C6 (amended): libvMI_close erases the closed module's registry entry
and shifts every later entry down by one index: a handle below the closed
one still designates its module, while a handle above it now finds its
old module at the previous index (the closed handle's successor slides
into its place). -/
theorem claim_C6_amended (reg : List Ip2vfModulesEntry) (h1 h2 : Int)
    (hnn1 : 0 ≤ h1) (hnn2 : 0 ≤ h2) :
    (h2 < h1 → (libvMI_close reg h1).1[h2.toNat]? = reg[h2.toNat]?) ∧
    (h1 < h2 → (libvMI_close reg h1).1[h2.toNat - 1]? = reg[h2.toNat]?) := by
  constructor
  · intro hlt
    have : h2.toNat < h1.toNat := by omega
    exact List.getElem?_eraseIdx_of_lt reg h1.toNat h2.toNat this
  · intro hlt
    have h1lt : h1.toNat ≤ h2.toNat - 1 := by omega
    have h2pos : 1 ≤ h2.toNat := by omega
    have := List.getElem?_eraseIdx_of_ge reg h1.toNat (h2.toNat - 1) h1lt
    rw [show h2.toNat - 1 + 1 = h2.toNat from by omega] at this
    exact this

/-- Witness for C6 (amended): in a two-module registry, closing handle 1
leaves handle 0 designating the same module, and after closing handle 0
the module registered at handle 1 is found at index 0. -/
theorem claim_C6_witness :
    (libvMI_close
        [{ moduleConfig := "a".toList, module := { outputs := [] } },
         { moduleConfig := "b".toList, module := { outputs := [] } }] 1).1[(0 : Int).toNat]? =
      some { moduleConfig := "a".toList, module := { outputs := [] } } ∧
    (libvMI_close
        [{ moduleConfig := "a".toList, module := { outputs := [] } },
         { moduleConfig := "b".toList, module := { outputs := [] } }] 0).1[((1 : Int).toNat - 1)]? =
      some { moduleConfig := "b".toList, module := { outputs := [] } } := by
  constructor
  · have h := (claim_C6_amended
        [{ moduleConfig := "a".toList, module := { outputs := [] } },
         { moduleConfig := "b".toList, module := { outputs := [] } }] 1 0
        (by decide) (by decide)).1 (by decide)
    rw [h]
    decide
  · have h := (claim_C6_amended
        [{ moduleConfig := "a".toList, module := { outputs := [] } },
         { moduleConfig := "b".toList, module := { outputs := [] } }] 0 1
        (by decide) (by decide)).2 (by decide)
    rw [h]
    decide

end LibvMI
